import Mathlib

/-!
Shallow embedding of the scoped memory store of the reminder-mcp repository:
the tools in src/tools/memory.ts (remember, recall, forget, promoteMemory),
the asynchronous embedding pipeline in src/services/embedding-worker.ts, and
the embedding backfill script.  Database tables become lists of rows, SQL
WHERE clauses become boolean filters, ORDER BY becomes a deterministic
insertion sort, and the external embedding provider becomes a function
returning `Except String Emb` (an error models a thrown provider error).
Cosine similarity and full-text rank, which Postgres computes, are abstract
rational-valued functions supplied by the environment.
-/

namespace ReminderMcp

/-- Embedding vectors; the code treats them as opaque numeric arrays handed
to pgvector, so rational lists suffice. -/
abbrev Emb := List ℚ

/-- config.database.type -/
inductive DbKind
  | sqlite
  | postgres
deriving DecidableEq, Repr

/-- Memory scope values (zod ScopeEnum). -/
inductive Scope
  | personal
  | team
  | application
  | global
deriving DecidableEq, Repr

/-- embedding_status column values. -/
inductive EmbStatus
  | pending
  | completed
  | failed
deriving DecidableEq, Repr

/-- A row of the memories table (src/db/models/Memory schema). -/
structure Memory where
  id : String
  user_id : String
  content : String
  tags : List String
  recalled_count : Nat
  embedding : Option Emb
  embedding_status : Option EmbStatus
  embedding_model : Option String
  embedding_error : Option String
  scope : Scope
  scope_id : Option String
  author_id : Option String
  promoted_from : Option String
  superseded_by : Option String
  retrieval_count : Nat
  last_retrieved_at : Option Int
  classification : Option String
  chat_id : Option String
  created_at : Int
deriving DecidableEq, Repr

/-- A row of the team_memberships table. -/
structure TeamMembership where
  user_id : String
  team_id : String
  role : String
deriving DecidableEq, Repr

/-- A row of the applications table. -/
structure Application where
  id : String
  name : String
  created_by : String
  team_id : Option String
deriving DecidableEq, Repr

/-- A row of the users table (only the field the memory tools read). -/
structure UserRow where
  id : String
  is_admin : Bool
deriving DecidableEq, Repr

/-- The database tables the memory tools touch.  The activities and chats
tables, which the tools only append to and never read back, are not
modelled. -/
structure Db where
  memories : List Memory
  team_memberships : List TeamMembership
  applications : List Application
  users : List UserRow
deriving DecidableEq, Repr

/-- The MCP request context (src/types/context.ts). -/
inductive ScopeType
  | user
  | team
deriving DecidableEq, Repr

structure McpContext where
  userId : String
  scopeType : ScopeType
  teamId : Option String
  isAdmin : Option Bool
deriving DecidableEq, Repr

/-- Static configuration plus the external collaborators: the embedding
provider (an error result models a thrown provider error), the cosine
similarity and ts_rank values Postgres computes, and whether the raw dedup
similarity query itself succeeds. -/
structure Env where
  dbKind : DbKind
  openaiApiKey : Bool
  redisUrl : Bool
  embeddingEnabled : Bool
  embed : String → Except String Emb
  sim : Emb → Emb → ℚ
  tsRank : String → String → ℚ
  dedupQueryOk : Bool

def Env.isPostgres (env : Env) : Bool := env.dbKind == DbKind.postgres

/-! ### Deterministic model of SQL ORDER BY: stable insertion sort -/

def insertBy {α : Type} (le : α → α → Bool) (x : α) : List α → List α
  | [] => [x]
  | y :: ys => if le x y then x :: y :: ys else y :: insertBy le x ys

def sortBy {α : Type} (le : α → α → Bool) : List α → List α
  | [] => []
  | x :: xs => insertBy le x (sortBy le xs)

theorem mem_insertBy {α : Type} (le : α → α → Bool) (x a : α) (l : List α) :
    a ∈ insertBy le x l ↔ a = x ∨ a ∈ l := by
  induction l with
  | nil => simp [insertBy]
  | cons y ys ih =>
    by_cases h : le x y = true
    · simp [insertBy, h]
    · simp only [insertBy]
      rw [if_neg h]
      simp only [List.mem_cons, ih]
      tauto

theorem mem_sortBy {α : Type} (le : α → α → Bool) (a : α) (l : List α) :
    a ∈ sortBy le l ↔ a ∈ l := by
  induction l with
  | nil => simp [sortBy]
  | cons x xs ih => simp [sortBy, mem_insertBy, ih]

theorem length_insertBy {α : Type} (le : α → α → Bool) (x : α) (l : List α) :
    (insertBy le x l).length = l.length + 1 := by
  induction l with
  | nil => simp [insertBy]
  | cons y ys ih =>
    by_cases h : le x y = true
    · simp [insertBy, h]
    · simp [insertBy, h, ih]

theorem length_sortBy {α : Type} (le : α → α → Bool) (l : List α) :
    (sortBy le l).length = l.length := by
  induction l with
  | nil => rfl
  | cons x xs ih => simp [sortBy, length_insertBy, ih]

theorem take_of_le_length {α : Type} (l : List α) (n : Nat) (h : l.length ≤ n) :
    l.take n = l := List.take_of_length_le h

/-! ### Directory helpers (team membership, application access) -/

/-- getUserTeamIds: all team IDs the user belongs to. -/
def getUserTeamIds (d : Db) (userId : String) : List String :=
  (d.team_memberships.filter (fun tm => tm.user_id == userId)).map (·.team_id)

/-- keepFirsts models the seen-set deduplication in getUserAppIds. -/
def keepFirsts (seen : List String) : List String → List String
  | [] => []
  | x :: xs =>
    if x ∈ seen then keepFirsts seen xs else x :: keepFirsts (x :: seen) xs

/-- getUserAppIds: applications the user created plus applications owned by a
team the user belongs to, first occurrence of each id kept. -/
def getUserAppIds (d : Db) (userId : String) : List String :=
  let ownedApps := (d.applications.filter (fun a => a.created_by == userId)).map (·.id)
  let teamApps := (d.applications.filter (fun a =>
    decide (∃ tm ∈ d.team_memberships, tm.user_id = userId ∧ a.team_id = some tm.team_id))).map (·.id)
  keepFirsts [] (ownedApps ++ teamApps)

/-- isTeamMember: the user has a membership row for the team. -/
def isTeamMember (d : Db) (userId teamId : String) : Bool :=
  (d.team_memberships.find? (fun tm =>
    decide (tm.user_id = userId ∧ tm.team_id = teamId))).isSome

/-- isTeamAdmin: the first matching membership row has role admin. -/
def isTeamAdmin (d : Db) (userId teamId : String) : Bool :=
  match d.team_memberships.find? (fun tm =>
    decide (tm.user_id = userId ∧ tm.team_id = teamId)) with
  | some tm => tm.role == "admin"
  | none => false

/-- isSystemAdmin: the users row carries is_admin. -/
def isSystemAdmin (d : Db) (userId : String) : Bool :=
  match d.users.find? (fun u => u.id == userId) with
  | some u => u.is_admin
  | none => false

/-! ### Write permission (validateWritePermission) -/

structure PermCheck where
  valid : Bool
  error : Option String
deriving DecidableEq, Repr

def validateWritePermission (d : Db) (userId : String) (scope : Scope)
    (scopeId : Option String) (ctx : Option McpContext) : PermCheck :=
  match scope with
  | Scope.personal => ⟨true, none⟩
  | Scope.team =>
    match scopeId.orElse (fun _ => ctx.bind (·.teamId)) with
    | none => ⟨false, some "scope_id (team ID) is required for team scope"⟩
    | some teamId =>
      if isTeamMember d userId teamId then ⟨true, none⟩
      else ⟨false, some "Not a member of the specified team"⟩
  | Scope.application =>
    match scopeId with
    | none => ⟨false, some "scope_id (application ID) is required for application scope"⟩
    | some sid =>
      match d.applications.find? (fun a => a.id == sid) with
      | none => ⟨false, some "Application not found"⟩
      | some app =>
        if app.created_by == userId then ⟨true, none⟩
        else
          match app.team_id with
          | some t =>
            if isTeamMember d userId t then ⟨true, none⟩
            else ⟨false, some "Not authorized for this application"⟩
          | none => ⟨false, some "Not authorized for this application"⟩
  | Scope.global =>
    let admin :=
      match ctx.bind (·.isAdmin) with
      | some b => b
      | none => isSystemAdmin d userId
    if admin then ⟨true, none⟩ else ⟨false, some "Admin access required for global scope"⟩

/-! ### remember (src/tools/memory.ts) -/

def EMBEDDING_MODEL : String := "text-embedding-3-small"

structure RememberInput where
  user_id : String
  content : String
  tags : List String
  scope : Option Scope
  scope_id : Option String
  classification : Option String
  chat_id : Option String
  supersedes : Option String
deriving DecidableEq, Repr

structure RememberOutput where
  success : Bool
  memory : Option Memory
  merged_from : Option String
  error : Option String
deriving DecidableEq, Repr

/-- A job on the Bull embeddings queue. -/
structure EmbeddingJobData where
  memoryId : String
  content : String
deriving DecidableEq, Repr

/-- Database plus the durable embedding queue. -/
structure World where
  db : Db
  queue : List EmbeddingJobData
deriving DecidableEq, Repr

/-- Scope determination at the top of remember: an explicit scope wins, a
team-scoped credential defaults to team scope (its team id filling a missing
scope_id), otherwise personal. -/
def resolveScope (input : RememberInput) (ctx : Option McpContext) :
    Scope × Option String :=
  match input.scope with
  | some s => (s, input.scope_id)
  | none =>
    match ctx with
    | some c =>
      if c.scopeType = ScopeType.team then
        (Scope.team, input.scope_id.orElse (fun _ => c.teamId))
      else (Scope.personal, input.scope_id)
    | none => (Scope.personal, input.scope_id)

/-- After the permission check: team scope with no scope_id picks up the
context team id. -/
def fixTeamScopeId (scope : Scope) (scopeId : Option String)
    (ctx : Option McpContext) : Option String :=
  if scope = Scope.team ∧ scopeId = none then
    match ctx.bind (·.teamId) with
    | some t => some t
    | none => scopeId
  else scopeId

/-- UPDATE memories SET superseded_by = newId WHERE id = targetId. -/
def setSupersededBy (mems : List Memory) (targetId newId : String) : List Memory :=
  mems.map (fun m =>
    if m.id = targetId then { m with superseded_by := some newId } else m)

/-- Explicit supersedes handling: if the named memory exists and is not
already superseded it is linked; otherwise nothing happens and no error is
raised. -/
def explicitSupersedeStep (mems : List Memory) (supersedes : Option String)
    (newId : String) : Option String × List Memory :=
  match supersedes with
  | none => (none, mems)
  | some sid =>
    match mems.find? (fun m => decide (m.id = sid ∧ m.superseded_by = none)) with
    | some _ => (some sid, setSupersededBy mems sid newId)
    | none => (none, mems)

/-- The WHERE fragment of the dedup similarity query: same effective scope,
personal additionally restricted to the same owner; an SQL comparison with a
NULL scope_id matches nothing. -/
def dedupScopeCheck (scope : Scope) (scopeId : Option String) (userId : String)
    (m : Memory) : Bool :=
  match scope with
  | Scope.personal => decide (m.scope = Scope.personal ∧ m.user_id = userId)
  | Scope.team => decide (m.scope = Scope.team ∧ m.scope_id = scopeId ∧ scopeId ≠ none)
  | Scope.application =>
    decide (m.scope = Scope.application ∧ m.scope_id = scopeId ∧ scopeId ≠ none)
  | Scope.global => decide (m.scope = Scope.global)

/-- Rows eligible for the dedup similarity query: in scope, with an
embedding, not superseded. -/
def dedupCandidates (mems : List Memory) (scope : Scope) (scopeId : Option String)
    (userId : String) : List Memory :=
  mems.filter (fun m =>
    dedupScopeCheck scope scopeId userId m && m.embedding.isSome && m.superseded_by.isNone)

/-- Similarity of a stored row against a fresh embedding (0 when the row has
no embedding; candidates always have one). -/
def simOf (env : Env) (e : Emb) (m : Memory) : ℚ :=
  match m.embedding with
  | some me => env.sim me e
  | none => 0

/-- ORDER BY similarity DESC LIMIT 1, ties resolved to the earliest row. -/
def dedupTop (env : Env) (e : Emb) : List Memory → Option Memory
  | [] => none
  | m :: ms =>
    match dedupTop env e ms with
    | none => some m
    | some b => if simOf env e m < simOf env e b then some b else some m

/-- The Phase 7 dedup block of remember: compute the embedding, and when the
write was not an explicit supersede, link the closest in-scope non-superseded
memory if its similarity exceeds 0.9.  Any provider or query failure is
caught and leaves the write unaffected (though an embedding computed before
the failure is kept). -/
def dedupStep (env : Env) (mems : List Memory) (scope : Scope)
    (scopeId : Option String) (userId content newId : String)
    (mergedFrom : Option String) : Option Emb × Option String × List Memory :=
  if env.isPostgres && env.openaiApiKey then
    match env.embed content with
    | Except.error _ => (none, mergedFrom, mems)
    | Except.ok e =>
      if mergedFrom = none then
        if env.dedupQueryOk then
          match dedupTop env e (dedupCandidates mems scope scopeId userId) with
          | some best =>
            if simOf env e best > 9/10 then
              (some e, some best.id, setSupersededBy mems best.id newId)
            else (some e, none, mems)
          | none => (some e, none, mems)
        else (some e, mergedFrom, mems)
      else (some e, mergedFrom, mems)
  else (none, mergedFrom, mems)

def queueUnavailableMsg : String :=
  "Embedding queue unavailable (requires REDIS_URL and OPENAI_API_KEY)"

/-- The fresh memory row remember inserts. -/
def newMemoryRow (env : Env) (input : RememberInput) (newId : String) (now : Int)
    (scope : Scope) (scopeId : Option String) (precomputed : Option Emb) : Memory :=
  { id := newId
    user_id := input.user_id
    content := input.content
    tags := input.tags
    recalled_count := 0
    embedding := if precomputed.isSome && env.isPostgres then precomputed else none
    embedding_status :=
      if precomputed.isSome then some EmbStatus.completed
      else if env.isPostgres then some EmbStatus.pending else none
    embedding_model := if precomputed.isSome then some EMBEDDING_MODEL else none
    embedding_error := none
    scope := scope
    scope_id := scopeId
    author_id := some input.user_id
    promoted_from := none
    superseded_by := none
    retrieval_count := 0
    last_retrieved_at := none
    classification := input.classification
    chat_id := input.chat_id
    created_at := now }

/-- The failed-status update written when the embedding queue is
unavailable. -/
def queueFailMark (m : Memory) : Memory :=
  { m with
    embedding_status := some EmbStatus.failed
    embedding_error := some queueUnavailableMsg }

/-- Insertion, job enqueueing and the queue-unavailable fallback, given the
outcome of the supersede/dedup steps. -/
def rememberFinish (env : Env) (w : World) (input : RememberInput) (newId : String)
    (now : Int) (scope : Scope) (scopeId : Option String)
    (precomputed : Option Emb) (mergedFrom : Option String)
    (mems2 : List Memory) : RememberOutput × World :=
  let mem := newMemoryRow env input newId now scope scopeId precomputed
  let needJob := env.isPostgres && precomputed.isNone
  let failNow := needJob && !env.embeddingEnabled
  let memFinal := if failNow then queueFailMark mem else mem
  let memsFinal :=
    if failNow then
      (mems2 ++ [mem]).map (fun m => if m.id = newId then queueFailMark m else m)
    else mems2 ++ [mem]
  let queueFinal :=
    if needJob && env.embeddingEnabled && env.redisUrl then
      w.queue ++ [⟨newId, input.content⟩]
    else w.queue
  ({ success := true, memory := some memFinal, merged_from := mergedFrom, error := none },
   { db := { w.db with memories := memsFinal }, queue := queueFinal })

/-- Everything remember does once the permission check has passed, given the
resolved scope and scope id.  A job is enqueued only when the row went in
without an embedding; enqueueEmbeddingJob returns false exactly when
embeddings are not enabled at all, in which case the row is immediately
marked failed; with embeddings enabled but no Redis, the best-effort
in-process run happens after the call returns and is not part of this
request's state transition. -/
def rememberBody (env : Env) (w : World) (input : RememberInput) (newId : String)
    (now : Int) (scope : Scope) (scopeId : Option String) :
    RememberOutput × World :=
  let step1 := explicitSupersedeStep w.db.memories input.supersedes newId
  let step2 := dedupStep env step1.2 scope scopeId input.user_id input.content newId step1.1
  rememberFinish env w input newId now scope scopeId step2.1 step2.2.1 step2.2.2

def remember (env : Env) (w : World) (input : RememberInput)
    (ctx : Option McpContext) (newId : String) (now : Int) :
    RememberOutput × World :=
  let rs := resolveScope input ctx
  let perm := validateWritePermission w.db input.user_id rs.1 rs.2 ctx
  if perm.valid = false then
    ({ success := false, memory := none, merged_from := none, error := perm.error }, w)
  else
    rememberBody env w input newId now rs.1 (fixTeamScopeId rs.1 rs.2 ctx)

/-! ### recall (src/tools/memory.ts) -/

structure RecallInput where
  user_id : String
  query : Option String
  tags : Option (List String)
  embedding_status : Option EmbStatus
  limit : Nat
  scope : Option Scope
  scope_id : Option String
  chat_id : Option String
deriving DecidableEq, Repr

/-- buildScopeFilter: the WHERE clause restricting rows to what the caller
may see, given the caller's team and application id lists. -/
def buildScopeFilter (userId : String) (teamIds appIds : List String)
    (scopeFilter : Option Scope) (scopeIdFilter : Option String)
    (m : Memory) : Bool :=
  match scopeFilter with
  | some Scope.personal => decide (m.scope = Scope.personal ∧ m.user_id = userId)
  | some Scope.team =>
    match scopeIdFilter with
    | some sid => decide (m.scope = Scope.team ∧ m.scope_id = some sid)
    | none =>
      if teamIds ≠ [] then
        decide (m.scope = Scope.team ∧ ∃ t ∈ teamIds, m.scope_id = some t)
      else false
  | some Scope.application =>
    match scopeIdFilter with
    | some sid => decide (m.scope = Scope.application ∧ m.scope_id = some sid)
    | none =>
      if appIds ≠ [] then
        decide (m.scope = Scope.application ∧ ∃ a ∈ appIds, m.scope_id = some a)
      else false
  | some Scope.global => decide (m.scope = Scope.global)
  | none =>
    decide ((m.scope = Scope.personal ∧ m.user_id = userId)
      ∨ (m.scope = Scope.team ∧ ∃ t ∈ teamIds, m.scope_id = some t)
      ∨ (m.scope = Scope.application ∧ ∃ a ∈ appIds, m.scope_id = some a)
      ∨ m.scope = Scope.global)

/-- The filters shared by every recall query: scope, superseded_by IS NULL,
optional embedding_status and chat_id. -/
def rowFilter (scopePred : Memory → Bool) (embStatus : Option EmbStatus)
    (chatId : Option String) (m : Memory) : Bool :=
  scopePred m && m.superseded_by.isNone
    && (match embStatus with
        | some s => m.embedding_status == some s
        | none => true)
    && (match chatId with
        | some c => m.chat_id == some c
        | none => true)

/-- Substring containment on character lists. -/
def charsContain (needle : List Char) : List Char → Bool
  | [] => needle.isEmpty
  | c :: cs => needle.isPrefixOf (c :: cs) || charsContain needle cs

/-- SQL LIKE with wildcards on both sides: substring containment. -/
def likeContains (content q : String) : Bool :=
  charsContain q.toList content.toList

/-- ORDER BY created_at DESC. -/
def byRecency (a b : Memory) : Bool := decide (b.created_at ≤ a.created_at)

/-- The hybrid CASE expression: rows with an embedding blend cosine
similarity and full-text rank; rows without use the full-text term alone. -/
def hybridScore (env : Env) (qe : Emb) (q : String) (m : Memory) : ℚ :=
  match m.embedding with
  | some me => env.sim me qe * (7/10) + env.tsRank m.content q * (3/10)
  | none => env.tsRank m.content q * (3/10)

/-- ORDER BY hybrid_score DESC, created_at DESC. -/
def byHybrid (env : Env) (qe : Emb) (q : String) (a b : Memory) : Bool :=
  decide (hybridScore env qe q b < hybridScore env qe q a
    ∨ (hybridScore env qe q a = hybridScore env qe q b ∧ b.created_at ≤ a.created_at))

/-- recallPostgresHybrid: no query orders by recency; with a query, a
successful query embedding scores every in-scope row by the hybrid formula;
a failed query embedding falls back to substring keyword match by recency. -/
def recallPostgresHybrid (env : Env) (d : Db) (input : RecallInput) (limit : Nat)
    (teamIds appIds : List String) : List Memory :=
  let scopePred := buildScopeFilter input.user_id teamIds appIds input.scope input.scope_id
  let base := rowFilter scopePred input.embedding_status input.chat_id
  match input.query with
  | none => (sortBy byRecency (d.memories.filter base)).take limit
  | some q =>
    match env.embed q with
    | Except.ok qe => (sortBy (byHybrid env qe q) (d.memories.filter base)).take limit
    | Except.error _ =>
      (sortBy byRecency (d.memories.filter (fun m => base m && likeContains m.content q))).take limit

/-- The SQLite (basic-capability) recall query: substring match only. -/
def recallSqliteRows (d : Db) (input : RecallInput) (limit : Nat)
    (teamIds appIds : List String) : List Memory :=
  let scopePred := buildScopeFilter input.user_id teamIds appIds input.scope input.scope_id
  let base := rowFilter scopePred input.embedding_status input.chat_id
  let withQuery := fun m =>
    base m && (match input.query with
               | some q => likeContains m.content q
               | none => true)
  (sortBy byRecency (d.memories.filter withQuery)).take limit

/-- Retrieval bookkeeping applied to every returned memory. -/
def bumpRetrieval (now : Int) (m : Memory) : Memory :=
  { m with
    recalled_count := m.recalled_count + 1
    retrieval_count := m.retrieval_count + 1
    last_retrieved_at := some now }

/-- The team id list recall queries against: a team-scoped credential pins
it to the credential's team, otherwise all teams of the caller. -/
def recallTeamIds (d : Db) (userId : String) (ctx : Option McpContext) : List String :=
  match ctx with
  | some c =>
    if c.scopeType = ScopeType.team ∧ c.teamId.isSome then c.teamId.toList
    else getUserTeamIds d userId
  | none => getUserTeamIds d userId

/-- The rows the database returns for a recall, before the in-memory tag
filter: the capability branch between the Postgres hybrid query and the
SQLite substring query. -/
def recallRows (env : Env) (d : Db) (input : RecallInput)
    (ctx : Option McpContext) : List Memory :=
  let teamIds := recallTeamIds d input.user_id ctx
  let appIds := getUserAppIds d input.user_id
  if env.isPostgres then recallPostgresHybrid env d input input.limit teamIds appIds
  else recallSqliteRows d input input.limit teamIds appIds

/-- The in-memory tag filter: keep rows sharing at least one requested tag. -/
def tagFilterStep (tags : Option (List String)) (rows : List Memory) : List Memory :=
  match tags with
  | some ts =>
    if ts ≠ [] then rows.filter (fun m => ts.any (fun t => m.tags.contains t)) else rows
  | none => rows

/-- The recall tool.  (The source calls this function recall; that word is a
command name under Mathlib, hence the suffix.) -/
def recallTool (env : Env) (d : Db) (input : RecallInput) (ctx : Option McpContext)
    (now : Int) : List Memory × Db :=
  let mems1 := tagFilterStep input.tags (recallRows env d input ctx)
  let ids := mems1.map (·.id)
  if ids = [] then (mems1, d)
  else
    (mems1.map (bumpRetrieval now),
     { d with memories := d.memories.map (fun m =>
         if ids.contains m.id then bumpRetrieval now m else m) })

/-! ### promoteMemory (src/tools/memory.ts) -/

structure PromoteInput where
  user_id : String
  memory_id : String
  target_scope : Scope
  target_scope_id : Option String
deriving DecidableEq, Repr

structure PromoteOutput where
  success : Bool
  memory : Option Memory
  error : Option String
deriving DecidableEq, Repr

def promoteMemory (env : Env) (d : Db) (input : PromoteInput) (newId : String)
    (now : Int) : PromoteOutput × Db :=
  match d.memories.find? (fun m => m.id == input.memory_id) with
  | none => ({ success := false, memory := none, error := some "Memory not found" }, d)
  | some source =>
    let perm := validateWritePermission d input.user_id input.target_scope
      input.target_scope_id none
    if perm.valid = false then
      ({ success := false, memory := none, error := perm.error }, d)
    else
      let mem : Memory :=
        { id := newId
          user_id := if input.target_scope = Scope.personal then input.user_id else source.user_id
          content := source.content
          tags := source.tags
          recalled_count := 0
          embedding := if env.isPostgres && source.embedding.isSome then source.embedding else none
          embedding_status := source.embedding_status
          embedding_model := source.embedding_model
          embedding_error := source.embedding_error
          scope := input.target_scope
          scope_id := input.target_scope_id
          author_id := some input.user_id
          promoted_from := some input.memory_id
          superseded_by := none
          retrieval_count := 0
          last_retrieved_at := none
          classification := source.classification
          chat_id := none
          created_at := now }
      ({ success := true, memory := some mem, error := none },
       { d with memories := d.memories ++ [mem] })

/-! ### Embedding job pipeline (src/services/embedding-worker.ts)

processMemoryEmbedding and the row updates are translated from the worker
source.  The retry loop itself is executed by the Bull queue library, an
external dependency; runQueueJob below is modelled from the spec: it
describes a durable queue that runs a job up to the configured number of
attempts, waiting an exponential backoff delay between attempts, invoking
the repository's failure handler (which writes failed status once the
attempts are exhausted), as configured by enqueueEmbeddingJob
(attempts = 5, exponential backoff with base delay 60000 ms).  The provider
is attempt-indexed so that distinct calls may fail with distinct errors. -/

def MAX_ATTEMPTS : Nat := 5

def BACKOFF_DELAY_MS : Nat := 60000

/-- Bull exponential backoff: delay doubling with each attempt already made. -/
def backoffDelay (attemptsMade : Nat) : Nat :=
  BACKOFF_DELAY_MS * 2 ^ (attemptsMade - 1)

/-- The backoff delays waited when every one of the next `fuel` attempts
fails, `made` attempts having already been made: one delay after each
attempt but the last. -/
def backoffList (made : Nat) : Nat → List Nat
  | 0 => []
  | fuel + 1 =>
    if fuel = 0 then [] else backoffDelay (made + 1) :: backoffList (made + 1) fuel

/-- The row update performed by processMemoryEmbedding on success. -/
def applyEmbeddingSuccess (mems : List Memory) (memId : String) (e : Emb) :
    List Memory :=
  mems.map (fun m =>
    if m.id = memId then
      { m with
        embedding := some e
        embedding_status := some EmbStatus.completed
        embedding_model := some EMBEDDING_MODEL
        embedding_error := none }
    else m)

/-- The row update performed by the failed-job handler (and by the catch
blocks that record an embedding failure). -/
def applyEmbeddingFailure (mems : List Memory) (memId : String) (msg : String) :
    List Memory :=
  mems.map (fun m =>
    if m.id = memId then
      { m with
        embedding_status := some EmbStatus.failed
        embedding_error := some msg }
    else m)

/-- Modelled from the spec: the Bull queue runtime driving one job.  Each
attempt calls the provider; success writes the completed row and stops;
failure fires the failed handler, which writes the failed row only once
MAX_ATTEMPTS attempts have been made, and otherwise retries after the
exponential backoff delay.  Returns the memories table, the number of
attempts made, and the list of delays waited between attempts. -/
def runQueueJobAux (provider : Nat → Except String Emb) (job : EmbeddingJobData)
    (mems : List Memory) (made : Nat) (delays : List Nat) :
    Nat → List Memory × Nat × List Nat
  | 0 => (mems, made, delays)
  | remaining + 1 =>
    let madeNext := made + 1
    match provider madeNext with
    | Except.ok e => (applyEmbeddingSuccess mems job.memoryId e, madeNext, delays)
    | Except.error msg =>
      let memsNext :=
        if MAX_ATTEMPTS ≤ madeNext then applyEmbeddingFailure mems job.memoryId msg
        else mems
      if remaining = 0 then (memsNext, madeNext, delays)
      else runQueueJobAux provider job memsNext madeNext
        (delays ++ [backoffDelay madeNext]) remaining

def runQueueJob (provider : Nat → Except String Emb) (job : EmbeddingJobData)
    (mems : List Memory) : List Memory × Nat × List Nat :=
  runQueueJobAux provider job mems 0 [] MAX_ATTEMPTS

/-! ### Embedding backfill script -/

def BATCH_SIZE : Nat := 100

/-- ORDER BY created_at ASC. -/
def byCreatedAsc (a b : Memory) : Bool := decide (a.created_at ≤ b.created_at)

/-- One batch selection: rows whose embedding is NULL, oldest first, at most
BATCH_SIZE of them. -/
def backfillSelect (mems : List Memory) : List Memory :=
  (sortBy byCreatedAsc (mems.filter (fun m => m.embedding.isNone))).take BATCH_SIZE

/-- Processing of a single selected row: mark pending, call the provider,
record completion or the failure message. -/
def backfillProcessRow (env : Env) (mems : List Memory) (row : Memory) :
    List Memory :=
  let mems1 := mems.map (fun m =>
    if m.id = row.id then
      { m with embedding_status := some EmbStatus.pending, embedding_error := none }
    else m)
  match env.embed row.content with
  | Except.ok e => applyEmbeddingSuccess mems1 row.id e
  | Except.error msg => applyEmbeddingFailure mems1 row.id msg

/-- One iteration of the backfill while-true loop: select a batch and process
each row in order, failures recorded without halting the batch.  The loop in
the script repeats this until the selection is empty. -/
def backfillBatch (env : Env) (mems : List Memory) : List Memory :=
  (backfillSelect mems).foldl (fun acc row => backfillProcessRow env acc row) mems

/-! ### Derived notions used in the statements -/

/-- Whether the request credential is a team key (with a team), which pins
the recall team list. -/
def teamKeyRestricted (ctx : Option McpContext) : Bool :=
  match ctx with
  | some c => c.scopeType == ScopeType.team && c.teamId.isSome
  | none => false

/-- The four-way scope union the spec prescribes for a recall without an
explicit scope: own personal memories, memories of the teams the caller
belongs to, memories of the applications the caller can access, and global
memories. -/
def recallScopeUnion (d : Db) (userId : String) (m : Memory) : Prop :=
  (m.scope = Scope.personal ∧ m.user_id = userId)
  ∨ (m.scope = Scope.team ∧ ∃ t ∈ getUserTeamIds d userId, m.scope_id = some t)
  ∨ (m.scope = Scope.application ∧ ∃ a ∈ getUserAppIds d userId, m.scope_id = some a)
  ∨ m.scope = Scope.global

instance (d : Db) (userId : String) (m : Memory) :
    Decidable (recallScopeUnion d userId m) := by
  unfold recallScopeUnion
  infer_instance

/-! ### Concrete fixtures used by witnesses and counterexamples -/

/-- A basic-capability (SQLite) deployment with no embedding provider. -/
def sqliteEnv : Env :=
  { dbKind := DbKind.sqlite
    openaiApiKey := false
    redisUrl := false
    embeddingEnabled := false
    embed := fun _ => Except.error "OPENAI_API_KEY is not configured"
    sim := fun _ _ => 0
    tsRank := fun _ _ => 0
    dedupQueryOk := true }

/-- A vector-capable (Postgres) deployment whose provider embeds everything
as the vector [1] and whose similarity and rank functions are simple
lookups. -/
def pgEnv : Env :=
  { dbKind := DbKind.postgres
    openaiApiKey := true
    redisUrl := true
    embeddingEnabled := true
    embed := fun _ => Except.ok [1]
    sim := fun _ _ => 1
    tsRank := fun c q => if likeContains c q then 1/2 else 0
    dedupQueryOk := true }

/-- A default personal memory all fixture rows are variations of. -/
def baseMemory : Memory :=
  { id := "m1"
    user_id := "u1"
    content := "wifi password is hunter2"
    tags := []
    recalled_count := 0
    embedding := none
    embedding_status := none
    embedding_model := none
    embedding_error := none
    scope := Scope.personal
    scope_id := none
    author_id := some "u1"
    promoted_from := none
    superseded_by := none
    retrieval_count := 0
    last_retrieved_at := none
    classification := none
    chat_id := none
    created_at := 0 }

def emptyDb : Db :=
  { memories := [], team_memberships := [], applications := [], users := [] }

def defaultRecall : RecallInput :=
  { user_id := "u1"
    query := none
    tags := none
    embedding_status := none
    limit := 50
    scope := none
    scope_id := none
    chat_id := none }

def defaultRemember : RememberInput :=
  { user_id := "u1"
    content := "wifi password is hunter2"
    tags := []
    scope := none
    scope_id := none
    classification := none
    chat_id := none
    supersedes := none }

/-- C2 fixtures: a store holding one embedded and one embedding-less row. -/
def vecMemory : Memory :=
  { baseMemory with
    id := "v1"
    embedding := some [1]
    embedding_status := some EmbStatus.completed
    created_at := 1 }

def plainMemory : Memory :=
  { baseMemory with id := "p1", content := "plain wifi note", created_at := 2 }

def c2Db : Db := { emptyDb with memories := [vecMemory, plainMemory] }

def c2Input : RecallInput := { defaultRecall with query := some "wifi", limit := 10 }

/-- C10 fixtures: the newest row lacks the requested tag, an older row in
scope carries it, and the limit is one. -/
def c10MemNew : Memory :=
  { baseMemory with id := "A1", content := "newest note", tags := ["x"], created_at := 2 }

def c10MemOld : Memory :=
  { baseMemory with id := "B1", content := "older note", tags := ["a"], created_at := 1 }

def c10Db : Db := { emptyDb with memories := [c10MemNew, c10MemOld] }

def c10Input : RecallInput := { defaultRecall with tags := some ["a"], limit := 1 }

/-- C7 fixtures: a Postgres deployment whose provider always throws and
whose dedup query also fails. -/
def c7Env : Env :=
  { pgEnv with embed := fun _ => Except.error "rate limited", dedupQueryOk := false }

def c7Db : Db := { emptyDb with memories := [baseMemory] }

def c7Input : RecallInput := { defaultRecall with query := some "wifi", limit := 10 }

/-- The row the C7 witness remember inserts. -/
def c7Mem : Memory := newMemoryRow c7Env defaultRemember "N1" 3 Scope.personal none none

/-- C5 fixtures: a team write whose author belongs to the team. -/
def c5TeamTm : TeamMembership :=
  { user_id := "u1", team_id := "11111111-1111-4111-8111-111111111111", role := "member" }

def c5TeamDb : Db := { emptyDb with team_memberships := [c5TeamTm] }

def c5TeamInput : RememberInput :=
  { defaultRemember with
    scope := some Scope.team
    scope_id := some "11111111-1111-4111-8111-111111111111" }

/-- The row the C5 witness remember inserts. -/
def c5TeamMem : Memory :=
  newMemoryRow sqliteEnv c5TeamInput "N5" 0 Scope.team
    (some "11111111-1111-4111-8111-111111111111") none

/-- C1 fixtures: one personal embedded memory to be superseded by a
near-duplicate write. -/
def c1Old : Memory :=
  { baseMemory with
    id := "A1"
    embedding := some [2]
    embedding_status := some EmbStatus.completed
    created_at := 0 }

def c1World : World := { db := { emptyDb with memories := [c1Old] }, queue := [] }

/-- C4 fixtures: the caller belongs to teams T1 and T2 but not T3; the
store holds a personal, three team and one global memory. -/
def tmU1T1 : TeamMembership := { user_id := "u1", team_id := "T1", role := "member" }

def tmU1T2 : TeamMembership := { user_id := "u1", team_id := "T2", role := "member" }

def memT1 : Memory :=
  { baseMemory with id := "mt1", scope := Scope.team, scope_id := some "T1", created_at := 1 }

def memT2 : Memory :=
  { baseMemory with id := "mt2", scope := Scope.team, scope_id := some "T2", created_at := 2 }

def memT3 : Memory :=
  { baseMemory with id := "mt3", scope := Scope.team, scope_id := some "T3", created_at := 3 }

def memGlobal : Memory :=
  { baseMemory with id := "mg1", scope := Scope.global, created_at := 4 }

def c4Db : Db :=
  { memories := [baseMemory, memT1, memT2, memT3, memGlobal]
    team_memberships := [tmU1T1, tmU1T2]
    applications := []
    users := [] }

/-- A team-scoped credential for team T1. -/
def c4Ctx : McpContext :=
  { userId := "u1", scopeType := ScopeType.team, teamId := some "T1", isAdmin := none }

/-- C5 fixture: a personal write that explicitly supplies a scope_id. -/
def c5Input : RememberInput :=
  { defaultRemember with
    scope := some Scope.personal
    scope_id := some "11111111-1111-4111-8111-111111111111" }

/-- C8 fixtures: the named supersedes target is already superseded while a
near-duplicate non-superseded row sits in the same scope. -/
def c8Superseded : Memory :=
  { baseMemory with
    id := "A1"
    embedding := some [2]
    embedding_status := some EmbStatus.completed
    superseded_by := some "Z1"
    created_at := 0 }

def c8Other : Memory :=
  { baseMemory with
    id := "B1"
    embedding := some [2]
    embedding_status := some EmbStatus.completed
    created_at := 1 }

def c8Db : Db := { emptyDb with memories := [c8Superseded, c8Other] }

def c8World : World := { db := c8Db, queue := [] }

def c8BadInput : RememberInput := { defaultRemember with supersedes := some "A1" }

def c8GoodInput : RememberInput := { defaultRemember with supersedes := some "B1" }

/-- C6 fixtures: the provider fails at remember time and on every queue
attempt, with a distinct message per attempt. -/
def c6Env : Env := { pgEnv with embed := fun _ => Except.error "boom sync" }

def c6Provider : Nat → Except String Emb :=
  fun k => Except.error ("boom attempt " ++ toString k)

def c6Errs : Nat → String := fun k => "boom attempt " ++ toString k

/-- C9 fixture: a single row whose embedding is NULL and whose provider
always fails. -/
def c9Env : Env :=
  { pgEnv with embed := fun _ => Except.error "provider down" }

def c9FailedMem : Memory :=
  { baseMemory with
    embedding_status := some EmbStatus.failed
    embedding_error := some "provider down" }

/-! ### Shared lemmas about the recall pipeline -/

theorem rowFilter_eq_true {p : Memory → Bool} {es : Option EmbStatus}
    {ci : Option String} {m : Memory} :
    rowFilter p es ci m = true ↔
      p m = true ∧ m.superseded_by = none
      ∧ (match es with
         | some s => m.embedding_status == some s
         | none => true) = true
      ∧ (match ci with
         | some c => m.chat_id == some c
         | none => true) = true := by
  simp only [rowFilter, Bool.and_eq_true, Option.isNone_iff_eq_none]
  tauto

theorem rowFilter_superseded {p : Memory → Bool} {es : Option EmbStatus}
    {ci : Option String} {m : Memory} (h : rowFilter p es ci m = true) :
    m.superseded_by = none := (rowFilter_eq_true.mp h).2.1

theorem rowFilter_scope {p : Memory → Bool} {es : Option EmbStatus}
    {ci : Option String} {m : Memory} (h : rowFilter p es ci m = true) :
    p m = true := (rowFilter_eq_true.mp h).1

theorem rowFilter_intro_none {p : Memory → Bool} {m : Memory}
    (hp : p m = true) (hs : m.superseded_by = none) :
    rowFilter p none none m = true := by
  simp [rowFilter, hp, hs]

theorem mem_recallPostgresHybrid {env : Env} {d : Db} {input : RecallInput}
    {limit : Nat} {teamIds appIds : List String} {m : Memory}
    (h : m ∈ recallPostgresHybrid env d input limit teamIds appIds) :
    m ∈ d.memories ∧
      rowFilter (buildScopeFilter input.user_id teamIds appIds input.scope input.scope_id)
        input.embedding_status input.chat_id m = true := by
  simp only [recallPostgresHybrid] at h
  split at h
  · have h1 := List.take_subset _ _ h
    rw [mem_sortBy] at h1
    exact List.mem_filter.mp h1
  · split at h
    · have h1 := List.take_subset _ _ h
      rw [mem_sortBy] at h1
      exact List.mem_filter.mp h1
    · have h1 := List.take_subset _ _ h
      rw [mem_sortBy] at h1
      have h2 := List.mem_filter.mp h1
      refine ⟨h2.1, ?_⟩
      have h3 := h2.2
      rw [Bool.and_eq_true] at h3
      exact h3.1

theorem mem_recallSqliteRows {d : Db} {input : RecallInput}
    {limit : Nat} {teamIds appIds : List String} {m : Memory}
    (h : m ∈ recallSqliteRows d input limit teamIds appIds) :
    m ∈ d.memories ∧
      rowFilter (buildScopeFilter input.user_id teamIds appIds input.scope input.scope_id)
        input.embedding_status input.chat_id m = true := by
  simp only [recallSqliteRows] at h
  have h1 := List.take_subset _ _ h
  rw [mem_sortBy] at h1
  have h2 := List.mem_filter.mp h1
  refine ⟨h2.1, ?_⟩
  have h3 := h2.2
  rw [Bool.and_eq_true] at h3
  exact h3.1

theorem mem_recallRows {env : Env} {d : Db} {input : RecallInput}
    {ctx : Option McpContext} {m : Memory}
    (h : m ∈ recallRows env d input ctx) :
    m ∈ d.memories ∧
      rowFilter (buildScopeFilter input.user_id (recallTeamIds d input.user_id ctx)
          (getUserAppIds d input.user_id) input.scope input.scope_id)
        input.embedding_status input.chat_id m = true := by
  simp only [recallRows] at h
  by_cases hpg : env.isPostgres = true
  · rw [if_pos hpg] at h
    exact mem_recallPostgresHybrid h
  · rw [if_neg hpg] at h
    exact mem_recallSqliteRows h

theorem mem_tagFilterStep {tags : Option (List String)} {rows : List Memory}
    {m : Memory} (h : m ∈ tagFilterStep tags rows) : m ∈ rows := by
  unfold tagFilterStep at h
  split at h
  · split at h
    · exact (List.mem_filter.mp h).1
    · exact h
  · exact h

theorem bumpRetrieval_id (now : Int) (m : Memory) :
    (bumpRetrieval now m).id = m.id := rfl

theorem bumpRetrieval_superseded (now : Int) (m : Memory) :
    (bumpRetrieval now m).superseded_by = m.superseded_by := rfl

theorem bumpRetrieval_scope (now : Int) (m : Memory) :
    (bumpRetrieval now m).scope = m.scope := rfl

theorem bumpRetrieval_scope_id (now : Int) (m : Memory) :
    (bumpRetrieval now m).scope_id = m.scope_id := rfl

theorem bumpRetrieval_user_id (now : Int) (m : Memory) :
    (bumpRetrieval now m).user_id = m.user_id := rfl

/-- Every memory a recall returns is (a retrieval-bumped copy of) a stored
row that passed the WHERE filters. -/
theorem recallTool_mem {env : Env} {d : Db} {input : RecallInput}
    {ctx : Option McpContext} {now : Int} {m : Memory}
    (hm : m ∈ (recallTool env d input ctx now).1) :
    ∃ r, r ∈ d.memories ∧
      rowFilter (buildScopeFilter input.user_id (recallTeamIds d input.user_id ctx)
          (getUserAppIds d input.user_id) input.scope input.scope_id)
        input.embedding_status input.chat_id r = true
      ∧ (m = r ∨ m = bumpRetrieval now r) := by
  unfold recallTool at hm
  simp only at hm
  split at hm
  · have h1 := mem_tagFilterStep hm
    obtain ⟨h2, h3⟩ := mem_recallRows h1
    exact ⟨m, h2, h3, Or.inl rfl⟩
  · obtain ⟨r, hr, rfl⟩ := List.mem_map.mp hm
    have h1 := mem_tagFilterStep hr
    obtain ⟨h2, h3⟩ := mem_recallRows h1
    exact ⟨r, h2, h3, Or.inr rfl⟩

/-- Inclusion: with no query, no tag filter and a limit at least the table
size, every stored row passing the WHERE filters is returned (bumped). -/
theorem recallTool_includes {env : Env} {d : Db} {input : RecallInput}
    {ctx : Option McpContext} {now : Int} {m : Memory}
    (hq : input.query = none) (htags : input.tags = none)
    (hlimit : d.memories.length ≤ input.limit)
    (hm : m ∈ d.memories)
    (hbase : rowFilter (buildScopeFilter input.user_id (recallTeamIds d input.user_id ctx)
        (getUserAppIds d input.user_id) input.scope input.scope_id)
      input.embedding_status input.chat_id m = true) :
    bumpRetrieval now m ∈ (recallTool env d input ctx now).1 := by
  have hgen : ∀ (le : Memory → Memory → Bool) (f : Memory → Bool), f m = true →
      m ∈ (sortBy le (d.memories.filter f)).take input.limit := by
    intro le f hf
    have hlen : (sortBy le (d.memories.filter f)).length ≤ input.limit := by
      rw [length_sortBy]
      exact le_trans (List.length_filter_le _ _) hlimit
    rw [take_of_le_length _ _ hlen, mem_sortBy]
    exact List.mem_filter.mpr ⟨hm, hf⟩
  have hrows : m ∈ recallRows env d input ctx := by
    simp only [recallRows]
    by_cases hpg : env.isPostgres = true
    · rw [if_pos hpg]
      simp only [recallPostgresHybrid, hq]
      exact hgen _ _ hbase
    · rw [if_neg hpg]
      simp only [recallSqliteRows, hq, Bool.and_true]
      exact hgen _ _ hbase
  have hmems1 : m ∈ tagFilterStep input.tags (recallRows env d input ctx) := by
    rw [htags]
    exact hrows
  unfold recallTool
  simp only
  have hne : (tagFilterStep input.tags (recallRows env d input ctx)).map (·.id) ≠ [] := by
    intro hcontra
    rw [List.map_eq_nil_iff] at hcontra
    rw [hcontra] at hmems1
    exact List.not_mem_nil m hmems1
  rw [if_neg hne]
  exact List.mem_map.mpr ⟨m, hmems1, rfl⟩

/-- The no-scope WHERE clause is exactly the four-way union. -/
theorem buildScopeFilter_none_iff (u : String) (tIds aIds : List String)
    (sid : Option String) (m : Memory) :
    buildScopeFilter u tIds aIds none sid m = true ↔
      ((m.scope = Scope.personal ∧ m.user_id = u)
       ∨ (m.scope = Scope.team ∧ ∃ t ∈ tIds, m.scope_id = some t)
       ∨ (m.scope = Scope.application ∧ ∃ a ∈ aIds, m.scope_id = some a)
       ∨ m.scope = Scope.global) := by
  simp [buildScopeFilter]

theorem recallTeamIds_of_not_teamKey (d : Db) (u : String)
    (ctx : Option McpContext) (h : teamKeyRestricted ctx = false) :
    recallTeamIds d u ctx = getUserTeamIds d u := by
  cases ctx with
  | none => rfl
  | some c =>
    simp only [teamKeyRestricted] at h
    simp only [recallTeamIds]
    rw [if_neg]
    intro hand
    have h1 : (c.scopeType == ScopeType.team) = true := by
      simp [hand.1]
    rw [h1, hand.2] at h
    simp at h

/-! ### Shared lemmas about dedup -/

theorem dedupTop_mem {env : Env} {e : Emb} {l : List Memory} {b : Memory}
    (h : dedupTop env e l = some b) : b ∈ l := by
  induction l generalizing b with
  | nil => simp [dedupTop] at h
  | cons m ms ih =>
    simp only [dedupTop] at h
    cases htop : dedupTop env e ms with
    | none =>
      rw [htop] at h
      have hh : some m = some b := h
      cases hh
      exact List.mem_cons_self _ _
    | some c =>
      rw [htop] at h
      have hh : (if simOf env e m < simOf env e c then some c else some m) = some b := h
      by_cases hlt : simOf env e m < simOf env e c
      · rw [if_pos hlt] at hh
        cases hh
        exact List.mem_cons_of_mem _ (ih htop)
      · rw [if_neg hlt] at hh
        cases hh
        exact List.mem_cons_self _ _

theorem dedupCandidates_subset {mems : List Memory} {scope : Scope}
    {scopeId : Option String} {userId : String} :
    dedupCandidates mems scope scopeId userId ⊆ mems := by
  intro x hx
  exact (List.mem_filter.mp hx).1

/-! ### Shared lemmas about remember -/

theorem remember_of_perm {env : Env} {w : World} {input : RememberInput}
    {ctx : Option McpContext} {newId : String} {now : Int}
    (hperm : (validateWritePermission w.db input.user_id (resolveScope input ctx).1
      (resolveScope input ctx).2 ctx).valid = true) :
    remember env w input ctx newId now =
      rememberBody env w input newId now (resolveScope input ctx).1
        (fixTeamScopeId (resolveScope input ctx).1 (resolveScope input ctx).2 ctx) := by
  have hne : ¬((validateWritePermission w.db input.user_id (resolveScope input ctx).1
      (resolveScope input ctx).2 ctx).valid = false) := by
    rw [hperm]
    simp
  unfold remember
  simp only
  rw [if_neg hne]

theorem explicitSupersedeStep_none (mems : List Memory) (newId : String) :
    explicitSupersedeStep mems none newId = (none, mems) := rfl

theorem explicitSupersedeStep_found {mems : List Memory} {sid newId : String}
    {tgt : Memory}
    (hfind : mems.find? (fun m => decide (m.id = sid ∧ m.superseded_by = none)) = some tgt) :
    explicitSupersedeStep mems (some sid) newId = (some sid, setSupersededBy mems sid newId) := by
  show (match mems.find? (fun m => decide (m.id = sid ∧ m.superseded_by = none)) with
        | some _ => (some sid, setSupersededBy mems sid newId)
        | none => ((none : Option String), mems)) = _
  rw [hfind]

theorem explicitSupersedeStep_missing {mems : List Memory} {sid newId : String}
    (hfind : mems.find? (fun m => decide (m.id = sid ∧ m.superseded_by = none)) = none) :
    explicitSupersedeStep mems (some sid) newId = (none, mems) := by
  show (match mems.find? (fun m => decide (m.id = sid ∧ m.superseded_by = none)) with
        | some _ => (some sid, setSupersededBy mems sid newId)
        | none => ((none : Option String), mems)) = _
  rw [hfind]

theorem dedupStep_hit {env : Env} {mems : List Memory} {scope : Scope}
    {scopeId : Option String} {uid content newId : String} {e : Emb} {best : Memory}
    (hpg : env.isPostgres = true) (hkey : env.openaiApiKey = true)
    (hembed : env.embed content = Except.ok e) (hqok : env.dedupQueryOk = true)
    (htop : dedupTop env e (dedupCandidates mems scope scopeId uid) = some best)
    (hsim : simOf env e best > 9/10) :
    dedupStep env mems scope scopeId uid content newId none =
      (some e, some best.id, setSupersededBy mems best.id newId) := by
  unfold dedupStep
  rw [hpg, hkey, hembed, hqok]
  simp [htop, hsim]

theorem dedupStep_merged (env : Env) (mems : List Memory) (scope : Scope)
    (scopeId : Option String) (uid content newId sid : String) :
    dedupStep env mems scope scopeId uid content newId (some sid) =
      (if env.isPostgres && env.openaiApiKey then
         match env.embed content with
         | Except.ok e => (some e, some sid, mems)
         | Except.error _ => (none, some sid, mems)
       else (none, some sid, mems)) := by
  unfold dedupStep
  by_cases hc : (env.isPostgres && env.openaiApiKey) = true
  · rw [if_pos hc, if_pos hc]
    cases he : env.embed content with
    | ok e => simp
    | error msg => simp
  · rw [if_neg hc, if_neg hc]

theorem rememberFinish_precomputed (env : Env) (w : World) (input : RememberInput)
    (newId : String) (now : Int) (scope : Scope) (scopeId : Option String)
    (e : Emb) (mergedFrom : Option String) (mems2 : List Memory) :
    rememberFinish env w input newId now scope scopeId (some e) mergedFrom mems2 =
      ({ success := true
         memory := some (newMemoryRow env input newId now scope scopeId (some e))
         merged_from := mergedFrom
         error := none },
       { db := { w.db with
           memories := mems2 ++ [newMemoryRow env input newId now scope scopeId (some e)] }
         queue := w.queue }) := by
  unfold rememberFinish
  simp

theorem rememberFinish_queued (env : Env) (w : World) (input : RememberInput)
    (newId : String) (now : Int) (scope : Scope) (scopeId : Option String)
    (mergedFrom : Option String) (mems2 : List Memory)
    (hpg : env.isPostgres = true) (hen : env.embeddingEnabled = true)
    (hred : env.redisUrl = true) :
    rememberFinish env w input newId now scope scopeId none mergedFrom mems2 =
      ({ success := true
         memory := some (newMemoryRow env input newId now scope scopeId none)
         merged_from := mergedFrom
         error := none },
       { db := { w.db with
           memories := mems2 ++ [newMemoryRow env input newId now scope scopeId none] }
         queue := w.queue ++ [⟨newId, input.content⟩] }) := by
  unfold rememberFinish
  simp [hpg, hen, hred]

theorem rememberFinish_spec (env : Env) (w : World) (input : RememberInput)
    (newId : String) (now : Int) (scope : Scope) (scopeId : Option String)
    (precomputed : Option Emb) (mergedFrom : Option String) (mems2 : List Memory) :
    (rememberFinish env w input newId now scope scopeId precomputed mergedFrom mems2).1.success = true
    ∧ ∃ mem0,
        (rememberFinish env w input newId now scope scopeId precomputed mergedFrom mems2).1.memory
          = some mem0
        ∧ mem0.id = newId
        ∧ mem0.scope = scope
        ∧ mem0.scope_id = scopeId
        ∧ mem0 ∈ (rememberFinish env w input newId now scope scopeId precomputed mergedFrom mems2).2.db.memories := by
  constructor
  · rfl
  · by_cases hfn : (env.isPostgres && precomputed.isNone && !env.embeddingEnabled) = true
    · refine ⟨queueFailMark (newMemoryRow env input newId now scope scopeId precomputed),
        ?_, rfl, rfl, rfl, ?_⟩
      · simp [rememberFinish, hfn]
      · simp only [rememberFinish, hfn, if_true]
        refine List.mem_map.mpr
          ⟨newMemoryRow env input newId now scope scopeId precomputed, by simp, ?_⟩
        simp [newMemoryRow]
    · refine ⟨newMemoryRow env input newId now scope scopeId precomputed, ?_, rfl, rfl, rfl, ?_⟩
      · simp [rememberFinish, hfn]
      · simp [rememberFinish, hfn]

theorem rememberBody_spec (env : Env) (w : World) (input : RememberInput)
    (newId : String) (now : Int) (scope : Scope) (scopeId : Option String) :
    (rememberBody env w input newId now scope scopeId).1.success = true
    ∧ ∃ mem0,
        (rememberBody env w input newId now scope scopeId).1.memory = some mem0
        ∧ mem0.id = newId
        ∧ mem0.scope = scope
        ∧ mem0.scope_id = scopeId
        ∧ mem0 ∈ (rememberBody env w input newId now scope scopeId).2.db.memories := by
  unfold rememberBody
  exact rememberFinish_spec _ _ _ _ _ _ _ _ _ _

theorem rememberBody_memory_fields {env : Env} {w : World} {input : RememberInput}
    {newId : String} {now : Int} {scope : Scope} {scopeId : Option String}
    {mem0 : Memory}
    (hmem : (rememberBody env w input newId now scope scopeId).1.memory = some mem0) :
    mem0.scope = scope ∧ mem0.scope_id = scopeId ∧ mem0.id = newId := by
  obtain ⟨_, mem1, hm1, hid1, hs1, hsid1, _⟩ :=
    rememberBody_spec env w input newId now scope scopeId
  rw [hm1] at hmem
  cases hmem
  exact ⟨hs1, hsid1, hid1⟩

theorem remember_failure_memory {env : Env} {w : World} {input : RememberInput}
    {ctx : Option McpContext} {newId : String} {now : Int}
    (hv : ¬((validateWritePermission w.db input.user_id (resolveScope input ctx).1
      (resolveScope input ctx).2 ctx).valid = true)) :
    (remember env w input ctx newId now).1.memory = none := by
  have hfalse : (validateWritePermission w.db input.user_id (resolveScope input ctx).1
      (resolveScope input ctx).2 ctx).valid = false := by
    cases hb : (validateWritePermission w.db input.user_id (resolveScope input ctx).1
        (resolveScope input ctx).2 ctx).valid
    · rfl
    · exact absurd hb hv
  unfold remember
  simp only
  rw [if_pos hfalse]

/-! ### Shared lemmas about write permission and scope ids -/

theorem validate_team_isSome {d : Db} {u : String} {scopeId : Option String}
    {ctx : Option McpContext}
    (h : (validateWritePermission d u Scope.team scopeId ctx).valid = true) :
    (scopeId.orElse (fun _ => ctx.bind (·.teamId))).isSome = true := by
  cases ho : scopeId.orElse (fun _ => ctx.bind (·.teamId)) with
  | none =>
    exfalso
    simp only [validateWritePermission] at h
    rw [ho] at h
    simp at h
  | some t => rfl

theorem validate_app_isSome {d : Db} {u : String} {scopeId : Option String}
    {ctx : Option McpContext}
    (h : (validateWritePermission d u Scope.application scopeId ctx).valid = true) :
    scopeId.isSome = true := by
  cases ho : scopeId with
  | none =>
    exfalso
    simp only [validateWritePermission] at h
    rw [ho] at h
    simp at h
  | some s => rfl

theorem fixTeamScopeId_team_isSome {scopeId : Option String} {ctx : Option McpContext}
    (h : (scopeId.orElse (fun _ => ctx.bind (·.teamId))).isSome = true) :
    (fixTeamScopeId Scope.team scopeId ctx).isSome = true := by
  unfold fixTeamScopeId
  cases hs : scopeId with
  | some s =>
    rw [if_neg]
    · rfl
    · intro hand
      exact Option.noConfusion hand.2
  | none =>
    rw [if_pos ⟨rfl, rfl⟩]
    rw [hs] at h
    have h2 : (ctx.bind (·.teamId)).isSome = true := h
    cases hb : ctx.bind (·.teamId) with
    | none =>
      rw [hb] at h2
      exact absurd h2 (by simp)
    | some t => rfl

theorem fixTeamScopeId_nonteam {scope : Scope} {scopeId : Option String}
    {ctx : Option McpContext} (h : scope ≠ Scope.team) :
    fixTeamScopeId scope scopeId ctx = scopeId := by
  unfold fixTeamScopeId
  rw [if_neg]
  intro hand
  exact h hand.1

/-! ### Claim theorems -/

/-- Claim C3: for every combination of query text, scope filter, scope_id,
tag set, embedding-status filter and limit, recall never returns a memory
whose superseded_by is non-null, on the hybrid-scored path, the
keyword-fallback path, the no-query path, and the basic backend path
alike. -/
theorem recall_never_returns_superseded (env : Env) (d : Db) (input : RecallInput)
    (ctx : Option McpContext) (now : Int) (m : Memory)
    (hm : m ∈ (recallTool env d input ctx now).1) :
    m.superseded_by = none := by
  obtain ⟨r, _, hfilter, hmr⟩ := recallTool_mem hm
  have hr := rowFilter_superseded hfilter
  cases hmr with
  | inl h => rw [h]; exact hr
  | inr h => rw [h, bumpRetrieval_superseded]; exact hr

/-- Witness for C3 at a concrete store: the single personal memory is
returned and indeed carries no superseded_by. -/
theorem recall_never_returns_superseded_witness :
    bumpRetrieval 7 baseMemory
        ∈ (recallTool sqliteEnv
            { emptyDb with memories := [baseMemory] } defaultRecall none 7).1
    ∧ (bumpRetrieval 7 baseMemory).superseded_by = none :=
  ⟨by decide,
   recall_never_returns_superseded sqliteEnv
     { emptyDb with memories := [baseMemory] } defaultRecall none 7
     (bumpRetrieval 7 baseMemory) (by decide)⟩

/-- Claim C2: on the hybrid path with a successful query embedding, the
result is the candidate set ranked by the hybrid score and cut to the limit;
every candidate's score is 0.7 x cosine similarity plus 0.3 x keyword rank,
the vector term being zero for rows without an embedding; and candidacy
depends only on the WHERE filters, never on embedding presence, so
embedding-less rows are included, not dropped. -/
theorem hybrid_score_and_inclusion (env : Env) (d : Db) (input : RecallInput)
    (limit : Nat) (teamIds appIds : List String) (q : String) (qe : Emb)
    (hq : input.query = some q) (he : env.embed q = Except.ok qe) :
    recallPostgresHybrid env d input limit teamIds appIds
      = (sortBy (byHybrid env qe q) (d.memories.filter
          (rowFilter (buildScopeFilter input.user_id teamIds appIds input.scope input.scope_id)
            input.embedding_status input.chat_id))).take limit
    ∧ (∀ m : Memory,
        hybridScore env qe q m
          = (match m.embedding with
             | some me => env.sim me qe
             | none => 0) * (7/10)
            + env.tsRank m.content q * (3/10))
    ∧ (∀ m ∈ d.memories,
        rowFilter (buildScopeFilter input.user_id teamIds appIds input.scope input.scope_id)
          input.embedding_status input.chat_id m = true →
        m ∈ d.memories.filter
          (rowFilter (buildScopeFilter input.user_id teamIds appIds input.scope input.scope_id)
            input.embedding_status input.chat_id)) := by
  refine ⟨?_, ?_, ?_⟩
  · simp only [recallPostgresHybrid, hq, he]
  · intro m
    unfold hybridScore
    cases hemb : m.embedding <;> simp
  · intro m hm hf
    exact List.mem_filter.mpr ⟨hm, hf⟩

/-- Witness for C2 on a concrete two-row store, one row embedded and one
not: the hypotheses hold and the ranked-candidate equation follows, and the
embedding-less row scores exactly its keyword term. -/
theorem hybrid_score_and_inclusion_witness :
    c2Input.query = some "wifi"
    ∧ pgEnv.embed "wifi" = Except.ok [1]
    ∧ recallPostgresHybrid pgEnv c2Db c2Input 10 [] []
        = (sortBy (byHybrid pgEnv [1] "wifi") (c2Db.memories.filter
            (rowFilter (buildScopeFilter c2Input.user_id [] [] c2Input.scope c2Input.scope_id)
              c2Input.embedding_status c2Input.chat_id))).take 10
    ∧ hybridScore pgEnv [1] "wifi" plainMemory
        = 0 * (7/10) + pgEnv.tsRank plainMemory.content "wifi" * (3/10)
    ∧ plainMemory ∈ c2Db.memories.filter
        (rowFilter (buildScopeFilter c2Input.user_id [] [] c2Input.scope c2Input.scope_id)
          c2Input.embedding_status c2Input.chat_id) :=
  ⟨rfl, rfl,
   (hybrid_score_and_inclusion pgEnv c2Db c2Input 10 [] [] "wifi" [1] rfl rfl).1,
   (hybrid_score_and_inclusion pgEnv c2Db c2Input 10 [] [] "wifi" [1] rfl rfl).2.1 plainMemory,
   (hybrid_score_and_inclusion pgEnv c2Db c2Input 10 [] [] "wifi" [1] rfl rfl).2.2 plainMemory
     (by decide) (by decide)⟩

/-- Claim C10: the result limit is applied by the database query before the
tag filter runs in memory: with limit 1, the untagged newest row fills the
limit, the tag filter then empties the result, yet an older in-scope,
non-superseded row carrying the requested tag exists in the store. -/
theorem limit_applied_before_tag_filter :
    (recallTool sqliteEnv c10Db c10Input none 9).1 = []
    ∧ (recallTool pgEnv c10Db c10Input none 9).1 = []
    ∧ c10MemOld ∈ c10Db.memories
    ∧ c10MemOld.superseded_by = none
    ∧ c10Input.tags = some ["a"]
    ∧ "a" ∈ c10MemOld.tags
    ∧ rowFilter (buildScopeFilter "u1" [] [] none none) none none c10MemOld = true
    ∧ c10Input.limit = 1 := by
  decide

/-- Claim C7: provider and pipeline errors never fail the surrounding call:
a permitted remember returns success and inserts its row for every
environment, including ones whose provider throws and whose dedup query
fails; and a recall whose query-embedding generation fails returns the
substring keyword match ordered by recency instead of erroring. -/
theorem provider_errors_never_fail_calls :
    (∀ (env : Env) (w : World) (input : RememberInput) (ctx : Option McpContext)
        (newId : String) (now : Int),
      (validateWritePermission w.db input.user_id (resolveScope input ctx).1
        (resolveScope input ctx).2 ctx).valid = true →
      (remember env w input ctx newId now).1.success = true
      ∧ ∃ mem0, (remember env w input ctx newId now).1.memory = some mem0
          ∧ mem0.id = newId
          ∧ mem0 ∈ (remember env w input ctx newId now).2.db.memories)
    ∧ (∀ (env : Env) (d : Db) (input : RecallInput) (limit : Nat)
        (teamIds appIds : List String) (q msg : String),
      input.query = some q →
      env.embed q = Except.error msg →
      recallPostgresHybrid env d input limit teamIds appIds =
        (sortBy byRecency (d.memories.filter (fun m =>
          rowFilter (buildScopeFilter input.user_id teamIds appIds input.scope input.scope_id)
            input.embedding_status input.chat_id m
          && likeContains m.content q))).take limit) := by
  constructor
  · intro env w input ctx newId now hv
    rw [remember_of_perm hv]
    obtain ⟨hs, mem1, hm1, hid1, _, _, hin⟩ := rememberBody_spec env w input newId now _ _
    exact ⟨hs, mem1, hm1, hid1, hin⟩
  · intro env d input limit teamIds appIds q msg hq he
    simp only [recallPostgresHybrid, hq, he]

/-- Witness for C7: a provider that always throws and a failing dedup query
still let remember succeed, and the failing query embedding still yields the
keyword fallback list. -/
theorem provider_errors_never_fail_calls_witness :
    (validateWritePermission emptyDb "u1" (resolveScope defaultRemember none).1
      (resolveScope defaultRemember none).2 none).valid = true
    ∧ (remember c7Env { db := emptyDb, queue := [] } defaultRemember none "N1" 3).1.success = true
    ∧ (remember c7Env { db := emptyDb, queue := [] } defaultRemember none "N1" 3).1.memory
        = some c7Mem
    ∧ c7Mem.id = "N1"
    ∧ c7Mem ∈ (remember c7Env { db := emptyDb, queue := [] } defaultRemember none "N1" 3).2.db.memories
    ∧ c7Input.query = some "wifi"
    ∧ c7Env.embed "wifi" = Except.error "rate limited"
    ∧ recallPostgresHybrid c7Env c7Db c7Input 10 [] [] =
        (sortBy byRecency (c7Db.memories.filter (fun m =>
          rowFilter (buildScopeFilter c7Input.user_id [] [] c7Input.scope c7Input.scope_id)
            c7Input.embedding_status c7Input.chat_id m
          && likeContains m.content "wifi"))).take 10 :=
  ⟨by decide,
   (provider_errors_never_fail_calls.1 c7Env { db := emptyDb, queue := [] }
     defaultRemember none "N1" 3 (by decide)).1,
   by decide, by decide, by decide,
   rfl, rfl,
   provider_errors_never_fail_calls.2 c7Env c7Db c7Input 10 [] [] "wifi" "rate limited" rfl rfl⟩

/-- Counterexample to C5 as stated: a remember with scope personal that
explicitly supplies a scope_id succeeds and stores a personal memory
carrying that scope_id, so scope_id non-null does not imply scope team or
application. -/
theorem scope_id_iff_counterexample :
    (remember sqliteEnv { db := emptyDb, queue := [] } c5Input none "N1" 0).1.success = true
    ∧ ((remember sqliteEnv { db := emptyDb, queue := [] } c5Input none "N1" 0).1.memory.map
        (fun m => (m.scope, m.scope_id)))
      = some (Scope.personal, some "11111111-1111-4111-8111-111111111111")
    ∧ ((remember sqliteEnv { db := emptyDb, queue := [] } c5Input none "N1" 0).2.db.memories.map
        (fun m => (m.scope, m.scope_id)))
      = [(Scope.personal, some "11111111-1111-4111-8111-111111111111")] := by
  decide

/-- Claim C5 (amended): every memory stored by remember or promote with
scope team or application carries a non-null scope_id; the reverse
implication fails because a personal or global write may explicitly supply a
scope_id, which is stored untouched. -/
theorem team_app_memories_have_scope_id :
    (∀ (env : Env) (w : World) (input : RememberInput) (ctx : Option McpContext)
        (newId : String) (now : Int) (mem0 : Memory),
      (remember env w input ctx newId now).1.memory = some mem0 →
      mem0.scope = Scope.team ∨ mem0.scope = Scope.application →
      mem0.scope_id ≠ none)
    ∧ (∀ (env : Env) (d : Db) (input : PromoteInput) (newId : String) (now : Int)
        (mem0 : Memory),
      (promoteMemory env d input newId now).1.memory = some mem0 →
      mem0.scope = Scope.team ∨ mem0.scope = Scope.application →
      mem0.scope_id ≠ none) := by
  constructor
  · intro env w input ctx newId now mem0 hmem hsc
    by_cases hv : (validateWritePermission w.db input.user_id (resolveScope input ctx).1
        (resolveScope input ctx).2 ctx).valid = true
    · rw [remember_of_perm hv] at hmem
      obtain ⟨hscope, hsid, _⟩ := rememberBody_memory_fields hmem
      cases hsc with
      | inl hteam =>
        have hrs : (resolveScope input ctx).1 = Scope.team := by rw [← hscope]; exact hteam
        rw [hsid, hrs]
        rw [hrs] at hv
        have h1 := validate_team_isSome hv
        have h2 := fixTeamScopeId_team_isSome h1
        intro hc
        rw [hc] at h2
        simp at h2
      | inr happ =>
        have hrs : (resolveScope input ctx).1 = Scope.application := by rw [← hscope]; exact happ
        rw [hsid, hrs]
        rw [hrs] at hv
        have h1 := validate_app_isSome hv
        rw [fixTeamScopeId_nonteam (by decide)]
        intro hc
        rw [hc] at h1
        simp at h1
    · rw [remember_failure_memory hv] at hmem
      exact Option.noConfusion hmem
  · intro env d input newId now mem0 hmem hsc
    unfold promoteMemory at hmem
    cases hfind : d.memories.find? (fun m => m.id == input.memory_id) with
    | none =>
      rw [hfind] at hmem
      exact Option.noConfusion hmem
    | some source =>
      rw [hfind] at hmem
      simp only at hmem
      by_cases hv : (validateWritePermission d input.user_id input.target_scope
          input.target_scope_id none).valid = false
      · rw [if_pos hv] at hmem
        exact Option.noConfusion hmem
      · rw [if_neg hv] at hmem
        have hvt : (validateWritePermission d input.user_id input.target_scope
            input.target_scope_id none).valid = true := by
          cases hb : (validateWritePermission d input.user_id input.target_scope
              input.target_scope_id none).valid
          · exact absurd hb hv
          · rfl
        have hscope : mem0.scope = input.target_scope := by
          injection hmem with h
          rw [← h]
        have hsid : mem0.scope_id = input.target_scope_id := by
          injection hmem with h
          rw [← h]
        cases hsc with
        | inl hteam =>
          have ht : input.target_scope = Scope.team := by rw [← hscope]; exact hteam
          rw [ht] at hvt
          have h1 := validate_team_isSome hvt
          rw [hsid]
          cases hsido : input.target_scope_id with
          | none =>
            exfalso
            rw [hsido] at h1
            exact absurd h1 (by decide)
          | some s => simp
        | inr happ =>
          have ht : input.target_scope = Scope.application := by rw [← hscope]; exact happ
          rw [ht] at hvt
          have h1 := validate_app_isSome hvt
          rw [hsid]
          intro hc
          rw [hc] at h1
          simp at h1

/-- Witness for the amended C5: a concrete permitted team write stores a
team memory with its team id as scope_id. -/
theorem team_app_memories_have_scope_id_witness :
    (remember sqliteEnv { db := c5TeamDb, queue := [] } c5TeamInput none "N5" 0).1.memory
      = some c5TeamMem
    ∧ (c5TeamMem.scope = Scope.team ∨ c5TeamMem.scope = Scope.application)
    ∧ c5TeamMem.scope_id ≠ none :=
  ⟨by decide, by decide,
   team_app_memories_have_scope_id.1 sqliteEnv { db := c5TeamDb, queue := [] }
     c5TeamInput none "N5" 0 c5TeamMem (by decide) (by decide)⟩

/-- Counterexample to C4 as stated: under a team-scoped credential for T1,
a caller who belongs to T1 and T2 recalls with no scope filter and receives
personal, T1 and global memories but not the T2 memory, although they are a
member of T2 — so the no-scope result is not always drawn from the full
four-way union. -/
theorem team_key_recall_counterexample :
    isTeamMember c4Db "u1" "T2" = true
    ∧ memT2 ∈ c4Db.memories
    ∧ memT2.superseded_by = none
    ∧ defaultRecall.scope = none
    ∧ c4Ctx.teamId = some "T1"
    ∧ ((recallTool sqliteEnv c4Db defaultRecall (some c4Ctx) 9).1.map Memory.id)
        = ["mg1", "mt1", "m1"] := by
  decide

/-- Claim C4 (amended): when the credential is not a team key, a recall with
no explicit scope draws from exactly the union of the caller's personal
memories, the memories of all the caller's teams, the memories of all
applications the caller can access, and global memories: every returned
memory lies in the union, and (absent query, tag, status and chat filters,
with a limit at least the table size) every non-superseded memory in the
union is returned. -/
theorem no_scope_recall_union (env : Env) (d : Db) (input : RecallInput)
    (ctx : Option McpContext) (now : Int)
    (hscope : input.scope = none) (hctx : teamKeyRestricted ctx = false) :
    (∀ m ∈ (recallTool env d input ctx now).1, recallScopeUnion d input.user_id m)
    ∧ (∀ m ∈ d.memories,
        input.query = none → input.tags = none → input.embedding_status = none →
        input.chat_id = none → d.memories.length ≤ input.limit →
        m.superseded_by = none → recallScopeUnion d input.user_id m →
        bumpRetrieval now m ∈ (recallTool env d input ctx now).1) := by
  constructor
  · intro m hm
    obtain ⟨r, _, hfilter, hmr⟩ := recallTool_mem hm
    have hsc := rowFilter_scope hfilter
    rw [hscope, recallTeamIds_of_not_teamKey d input.user_id ctx hctx] at hsc
    have hu := (buildScopeFilter_none_iff _ _ _ _ _).mp hsc
    cases hmr with
    | inl h => rw [h]; exact hu
    | inr h => rw [h]; exact hu
  · intro m hmm hq htags hes hchat hlim hsup hunion
    have hbase : rowFilter (buildScopeFilter input.user_id
        (recallTeamIds d input.user_id ctx) (getUserAppIds d input.user_id)
        input.scope input.scope_id) input.embedding_status input.chat_id m = true := by
      rw [hes, hchat]
      apply rowFilter_intro_none
      · rw [hscope, recallTeamIds_of_not_teamKey d input.user_id ctx hctx]
        exact (buildScopeFilter_none_iff _ _ _ _ _).mpr hunion
      · exact hsup
    exact recallTool_includes hq htags hlim hmm hbase

/-- Witness for the amended C4: with no credential restriction, the member
of T1 and T2 does receive the T2 memory from a no-scope recall. -/
theorem no_scope_recall_union_witness :
    defaultRecall.scope = none
    ∧ teamKeyRestricted none = false
    ∧ bumpRetrieval 9 memT2 ∈ (recallTool sqliteEnv c4Db defaultRecall none 9).1 :=
  ⟨rfl, rfl,
   (no_scope_recall_union sqliteEnv c4Db defaultRecall none 9 rfl rfl).2 memT2
     (by decide) rfl rfl rfl rfl (by decide) (by decide) (by decide)⟩

/-- Claim C1: a remember without an explicit supersedes target, in an
effective scope (personal scope owner-restricted), whose top-similarity
in-scope non-superseded embedded memory scores strictly above 0.9, sets that
memory's superseded_by to the new id, reports it as merged_from, and a
subsequent recall returns the new memory but never the superseded one. -/
theorem dedup_supersedes_on_similarity
    (env : Env) (w : World) (input : RememberInput) (ctx : Option McpContext)
    (newId : String) (now : Int) (scope : Scope) (scopeId0 scopeId : Option String)
    (e : Emb) (best : Memory)
    (hrs : resolveScope input ctx = (scope, scopeId0))
    (hfix : fixTeamScopeId scope scopeId0 ctx = scopeId)
    (hperm : (validateWritePermission w.db input.user_id scope scopeId0 ctx).valid = true)
    (hsup : input.supersedes = none)
    (hpg : env.isPostgres = true) (hkey : env.openaiApiKey = true)
    (hembed : env.embed input.content = Except.ok e)
    (hqok : env.dedupQueryOk = true)
    (htop : dedupTop env e (dedupCandidates w.db.memories scope scopeId input.user_id)
      = some best)
    (hsim : simOf env e best > 9/10)
    (hnew : ∀ m ∈ w.db.memories, m.id ≠ newId) :
    remember env w input ctx newId now =
      ({ success := true
         memory := some (newMemoryRow env input newId now scope scopeId (some e))
         merged_from := some best.id
         error := none },
       { db := { w.db with memories := (setSupersededBy w.db.memories best.id newId
             ++ [newMemoryRow env input newId now scope scopeId (some e)]) }
         queue := w.queue })
    ∧ (∀ m ∈ (remember env w input ctx newId now).2.db.memories,
        m.id = best.id → m.superseded_by = some newId)
    ∧ (∀ (rin : RecallInput) (ctx2 : Option McpContext) (now2 : Int) (m : Memory),
        m ∈ (recallTool env (remember env w input ctx newId now).2.db rin ctx2 now2).1 →
        m.id ≠ best.id)
    ∧ (∀ (rin : RecallInput) (ctx2 : Option McpContext) (now2 : Int),
        rin.query = none → rin.tags = none → rin.embedding_status = none →
        rin.chat_id = none → rin.scope = none → teamKeyRestricted ctx2 = false →
        (remember env w input ctx newId now).2.db.memories.length ≤ rin.limit →
        recallScopeUnion (remember env w input ctx newId now).2.db rin.user_id
          (newMemoryRow env input newId now scope scopeId (some e)) →
        bumpRetrieval now2 (newMemoryRow env input newId now scope scopeId (some e))
          ∈ (recallTool env (remember env w input ctx newId now).2.db rin ctx2 now2).1) := by
  have hperm2 : (validateWritePermission w.db input.user_id (resolveScope input ctx).1
      (resolveScope input ctx).2 ctx).valid = true := by
    rw [hrs]
    exact hperm
  have hbestmem : best ∈ w.db.memories := dedupCandidates_subset (dedupTop_mem htop)
  have hbestne : best.id ≠ newId := hnew best hbestmem
  have halign : rememberBody env w input newId now (resolveScope input ctx).1
      (fixTeamScopeId (resolveScope input ctx).1 (resolveScope input ctx).2 ctx)
      = rememberBody env w input newId now scope scopeId := by
    rw [hrs, ← hfix]
  have hrem : remember env w input ctx newId now =
      ({ success := true
         memory := some (newMemoryRow env input newId now scope scopeId (some e))
         merged_from := some best.id
         error := none },
       { db := { w.db with memories := (setSupersededBy w.db.memories best.id newId
             ++ [newMemoryRow env input newId now scope scopeId (some e)]) }
         queue := w.queue }) := by
    rw [remember_of_perm hperm2, halign]
    unfold rememberBody
    rw [hsup]
    simp only [explicitSupersedeStep_none]
    rw [dedupStep_hit hpg hkey hembed hqok htop hsim]
    exact rememberFinish_precomputed env w input newId now scope scopeId e
      (some best.id) (setSupersededBy w.db.memories best.id newId)
  have hmems : (remember env w input ctx newId now).2.db.memories =
      setSupersededBy w.db.memories best.id newId
        ++ [newMemoryRow env input newId now scope scopeId (some e)] := by
    rw [hrem]
  have hclause2 : ∀ m ∈ (remember env w input ctx newId now).2.db.memories,
      m.id = best.id → m.superseded_by = some newId := by
    intro m hm hid
    rw [hmems] at hm
    rcases List.mem_append.mp hm with hm1 | hm2
    · obtain ⟨r, hr, hfr⟩ := List.mem_map.mp hm1
      by_cases hcase : r.id = best.id
      · rw [if_pos hcase] at hfr
        rw [← hfr]
      · rw [if_neg hcase] at hfr
        rw [← hfr] at hid
        exact absurd hid hcase
    · have hm3 : m = newMemoryRow env input newId now scope scopeId (some e) := by
        simpa using hm2
      rw [hm3] at hid
      have hni : newId = best.id := hid
      exact absurd hni.symm hbestne
  refine ⟨hrem, hclause2, ?_, ?_⟩
  · intro rin ctx2 now2 m hm hid
    obtain ⟨r, hrmem, hfilter, hmr⟩ := recallTool_mem hm
    have hsupn := rowFilter_superseded hfilter
    have hpair : r.superseded_by = none ∧ r.id = best.id := by
      cases hmr with
      | inl h =>
        subst h
        exact ⟨hsupn, hid⟩
      | inr h =>
        subst h
        exact ⟨hsupn, hid⟩
    have hlink := hclause2 r hrmem hpair.2
    rw [hpair.1] at hlink
    exact Option.noConfusion hlink
  · intro rin ctx2 now2 hq htags hes hchat hscope2 hctx2 hlim hunion
    have hmemNew : newMemoryRow env input newId now scope scopeId (some e)
        ∈ (remember env w input ctx newId now).2.db.memories := by
      rw [hmems]
      exact List.mem_append.mpr (Or.inr (by simp))
    have hbase : rowFilter (buildScopeFilter rin.user_id
        (recallTeamIds (remember env w input ctx newId now).2.db rin.user_id ctx2)
        (getUserAppIds (remember env w input ctx newId now).2.db rin.user_id)
        rin.scope rin.scope_id) rin.embedding_status rin.chat_id
        (newMemoryRow env input newId now scope scopeId (some e)) = true := by
      rw [hes, hchat]
      apply rowFilter_intro_none
      · rw [hscope2, recallTeamIds_of_not_teamKey _ _ _ hctx2]
        exact (buildScopeFilter_none_iff _ _ _ _ _).mpr hunion
      · rfl
    exact recallTool_includes hq htags hlim hmemNew hbase

/-- Witness for C1: a second near-identical personal write supersedes the
stored embedded memory, reports it as merged_from, and a recall afterwards
returns the new memory while the old one is gone. -/
theorem dedup_supersedes_on_similarity_witness :
    (remember pgEnv c1World defaultRemember none "B1" 5).1.merged_from = some "A1"
    ∧ ((remember pgEnv c1World defaultRemember none "B1" 5).2.db.memories.map
        (fun m => (m.id, m.superseded_by)))
      = [("A1", some "B1"), ("B1", none)]
    ∧ bumpRetrieval 9 (newMemoryRow pgEnv defaultRemember "B1" 5 Scope.personal none (some [1]))
        ∈ (recallTool pgEnv (remember pgEnv c1World defaultRemember none "B1" 5).2.db
            defaultRecall none 9).1 := by
  have h := dedup_supersedes_on_similarity pgEnv c1World defaultRemember none "B1" 5
    Scope.personal none none [1] c1Old (by decide) (by decide) (by decide) rfl rfl rfl rfl
    rfl (by decide) (by norm_num [simOf, c1Old, baseMemory, pgEnv]) (by decide)
  refine ⟨?_, ?_, ?_⟩
  · rw [h.1]
    rfl
  · rw [h.1]
    decide
  · exact h.2.2.2 defaultRecall none 9 rfl rfl rfl rfl rfl rfl
      (by rw [h.1]; decide) (by rw [h.1]; decide)

theorem map_id_of {α : Type} (f : α → α) (l : List α) (h : ∀ x ∈ l, f x = x) :
    l.map f = l := by
  induction l with
  | nil => rfl
  | cons x xs ih =>
    simp only [List.map_cons]
    rw [h x (by simp), ih (fun y hy => h y (by simp [hy]))]

/-- With an explicitly merged write, the dedup step leaves the store
untouched and keeps the explicit merged_from, whatever the provider does. -/
theorem dedupStep_merged_snd (env : Env) (mems : List Memory) (scope : Scope)
    (scopeId : Option String) (uid content newId sid : String) :
    (dedupStep env mems scope scopeId uid content newId (some sid)).2 = (some sid, mems) := by
  rw [dedupStep_merged]
  by_cases hc : (env.isPostgres && env.openaiApiKey) = true
  · rw [if_pos hc]
    cases he : env.embed content <;> simp
  · rw [if_neg hc]

theorem rememberFinish_merged_from (env : Env) (w : World) (input : RememberInput)
    (newId : String) (now : Int) (scope : Scope) (scopeId : Option String)
    (precomputed : Option Emb) (mergedFrom : Option String) (mems2 : List Memory) :
    (rememberFinish env w input newId now scope scopeId precomputed mergedFrom mems2).1.merged_from
      = mergedFrom := rfl

/-- When no pre-insert row shares the fresh id, the post-insert table is the
pre-insert table with exactly one appended row carrying the fresh id. -/
theorem rememberFinish_memories_shape (env : Env) (w : World) (input : RememberInput)
    (newId : String) (now : Int) (scope : Scope) (scopeId : Option String)
    (precomputed : Option Emb) (mergedFrom : Option String) (mems2 : List Memory)
    (hms : ∀ m ∈ mems2, m.id ≠ newId) :
    ∃ memF,
      (rememberFinish env w input newId now scope scopeId precomputed mergedFrom mems2).2.db.memories
        = mems2 ++ [memF]
      ∧ memF.id = newId
      ∧ memF.superseded_by = none
      ∧ (rememberFinish env w input newId now scope scopeId precomputed mergedFrom mems2).1.memory
          = some memF := by
  by_cases hfn : (env.isPostgres && precomputed.isNone && !env.embeddingEnabled) = true
  · refine ⟨queueFailMark (newMemoryRow env input newId now scope scopeId precomputed),
      ?_, rfl, rfl, ?_⟩
    · simp only [rememberFinish, hfn, if_true]
      rw [List.map_append]
      rw [map_id_of _ mems2 (fun x hx => by rw [if_neg (hms x hx)])]
      simp [newMemoryRow]
    · simp [rememberFinish, hfn]
  · refine ⟨newMemoryRow env input newId now scope scopeId precomputed, ?_, rfl, rfl, ?_⟩
    · simp [rememberFinish, hfn]
    · simp [rememberFinish, hfn]

theorem setSupersededBy_ids {mems : List Memory} {t n : String} {m : Memory}
    (hm : m ∈ setSupersededBy mems t n) :
    ∃ r ∈ mems, m.id = r.id := by
  obtain ⟨r, hr, hfr⟩ := List.mem_map.mp hm
  refine ⟨r, hr, ?_⟩
  by_cases hcase : r.id = t
  · rw [if_pos hcase] at hfr
    rw [← hfr]
  · rw [if_neg hcase] at hfr
    rw [← hfr]

/-- Counterexample to C8 as stated: the write names supersedes target A1,
which is already superseded, so it is not linked; the automatic similarity
search still runs and links the unrelated near-duplicate B1 instead — so a
similarity search is performed for a write with an explicit supersedes
target. -/
theorem explicit_supersedes_counterexample :
    c8BadInput.supersedes = some "A1"
    ∧ c8Superseded.id = "A1"
    ∧ c8Superseded.superseded_by = some "Z1"
    ∧ ("B1" : String) ≠ "A1"
    ∧ (remember pgEnv c8World c8BadInput none "N1" 5).1.merged_from = some "B1"
    ∧ ((remember pgEnv c8World c8BadInput none "N1" 5).2.db.memories.map
        (fun m => (m.id, m.superseded_by)))
      = [("A1", some "Z1"), ("B1", some "N1"), ("N1", none)] := by
  have hperm2 : (validateWritePermission c8World.db c8BadInput.user_id
      (resolveScope c8BadInput none).1 (resolveScope c8BadInput none).2 none).valid = true := by
    decide
  have hfind : c8World.db.memories.find?
      (fun m => decide (m.id = "A1" ∧ m.superseded_by = none)) = none := by decide
  have htop : dedupTop pgEnv [1]
      (dedupCandidates c8World.db.memories Scope.personal none c8BadInput.user_id)
      = some c8Other := by decide
  have hembed8 : pgEnv.embed c8BadInput.content = Except.ok [1] := rfl
  have hsim8 : simOf pgEnv [1] c8Other > 9/10 := by
    norm_num [simOf, c8Other, baseMemory, pgEnv]
  have hrem : remember pgEnv c8World c8BadInput none "N1" 5 =
      ({ success := true
         memory := some (newMemoryRow pgEnv c8BadInput "N1" 5 Scope.personal none (some [1]))
         merged_from := some "B1"
         error := none },
       { db := { c8World.db with memories := (setSupersededBy c8World.db.memories "B1" "N1"
             ++ [newMemoryRow pgEnv c8BadInput "N1" 5 Scope.personal none (some [1])]) }
         queue := c8World.queue }) := by
    rw [remember_of_perm hperm2]
    have halign : rememberBody pgEnv c8World c8BadInput "N1" 5
        (resolveScope c8BadInput none).1
        (fixTeamScopeId (resolveScope c8BadInput none).1 (resolveScope c8BadInput none).2 none)
        = rememberBody pgEnv c8World c8BadInput "N1" 5 Scope.personal none := rfl
    rw [halign]
    unfold rememberBody
    rw [show c8BadInput.supersedes = some "A1" from rfl]
    simp only [explicitSupersedeStep_missing hfind]
    rw [dedupStep_hit (show pgEnv.isPostgres = true from rfl)
      (show pgEnv.openaiApiKey = true from rfl) hembed8
      (show pgEnv.dedupQueryOk = true from rfl) htop hsim8]
    exact rememberFinish_precomputed pgEnv c8World c8BadInput "N1" 5 Scope.personal none [1]
      (some "B1") (setSupersededBy c8World.db.memories "B1" "N1")
  refine ⟨rfl, rfl, rfl, by decide, ?_, ?_⟩
  · rw [hrem]
  · rw [hrem]
    decide

/-- Claim C8 (amended): when the named supersedes target exists and is not
already superseded, it is linked (superseded_by set to the new id) and
reported as merged_from, the table is the old table with only that update
plus one fresh non-superseded row, and no similarity search happens: the
result does not depend on the similarity function at all.  (When the target
is missing or already superseded, the write continues without linking it and
the automatic similarity search runs, as the counterexample shows.) -/
theorem explicit_supersedes_links_target
    (env : Env) (w : World) (input : RememberInput) (ctx : Option McpContext)
    (newId : String) (now : Int) (sid : String) (tgt : Memory)
    (scope : Scope) (scopeId0 scopeId : Option String)
    (hrs : resolveScope input ctx = (scope, scopeId0))
    (hfix : fixTeamScopeId scope scopeId0 ctx = scopeId)
    (hperm : (validateWritePermission w.db input.user_id scope scopeId0 ctx).valid = true)
    (hsup : input.supersedes = some sid)
    (hfind : w.db.memories.find?
      (fun m => decide (m.id = sid ∧ m.superseded_by = none)) = some tgt)
    (hnew : ∀ m ∈ w.db.memories, m.id ≠ newId) :
    (remember env w input ctx newId now).1.merged_from = some sid
    ∧ (∀ m ∈ (remember env w input ctx newId now).2.db.memories,
        m.id = sid → m.superseded_by = some newId)
    ∧ (∃ memF,
        (remember env w input ctx newId now).2.db.memories
          = setSupersededBy w.db.memories sid newId ++ [memF]
        ∧ memF.id = newId ∧ memF.superseded_by = none)
    ∧ (∀ simf, remember { env with sim := simf } w input ctx newId now
        = remember env w input ctx newId now) := by
  have hperm2 : (validateWritePermission w.db input.user_id (resolveScope input ctx).1
      (resolveScope input ctx).2 ctx).valid = true := by
    rw [hrs]
    exact hperm
  have htgt : tgt ∈ w.db.memories := List.mem_of_find?_eq_some hfind
  have htgtp := List.find?_some hfind
  rw [decide_eq_true_eq] at htgtp
  have hsidne : sid ≠ newId := by
    rw [← htgtp.1]
    exact hnew tgt htgt
  have halign : rememberBody env w input newId now (resolveScope input ctx).1
      (fixTeamScopeId (resolveScope input ctx).1 (resolveScope input ctx).2 ctx)
      = rememberBody env w input newId now scope scopeId := by
    rw [hrs, ← hfix]
  have hstep : remember env w input ctx newId now
      = rememberFinish env w input newId now scope scopeId
          (dedupStep env (setSupersededBy w.db.memories sid newId) scope scopeId
            input.user_id input.content newId (some sid)).1
          (some sid) (setSupersededBy w.db.memories sid newId) := by
    rw [remember_of_perm hperm2, halign]
    unfold rememberBody
    rw [hsup]
    simp only [explicitSupersedeStep_found hfind]
    rw [dedupStep_merged_snd]
  have hms : ∀ m ∈ setSupersededBy w.db.memories sid newId, m.id ≠ newId := by
    intro m hm
    obtain ⟨r, hr, hid⟩ := setSupersededBy_ids hm
    rw [hid]
    exact hnew r hr
  obtain ⟨memF, hshape, hidF, hsupF, _⟩ :=
    rememberFinish_memories_shape env w input newId now scope scopeId
      (dedupStep env (setSupersededBy w.db.memories sid newId) scope scopeId
        input.user_id input.content newId (some sid)).1
      (some sid) (setSupersededBy w.db.memories sid newId) hms
  refine ⟨?_, ?_, ?_, ?_⟩
  · rw [hstep, rememberFinish_merged_from]
  · intro m hm hid
    rw [hstep] at hm
    rw [hshape] at hm
    rcases List.mem_append.mp hm with hm1 | hm2
    · obtain ⟨r, hr, hfr⟩ := List.mem_map.mp hm1
      by_cases hcase : r.id = sid
      · rw [if_pos hcase] at hfr
        rw [← hfr]
      · rw [if_neg hcase] at hfr
        rw [← hfr] at hid
        exact absurd hid hcase
    · have hm3 : m = memF := by simpa using hm2
      rw [hm3, hidF] at hid
      exact absurd hid.symm hsidne
  · refine ⟨memF, ?_, hidF, hsupF⟩
    rw [hstep]
    exact hshape
  · intro simf
    have hperm3 : (validateWritePermission w.db input.user_id (resolveScope input ctx).1
        (resolveScope input ctx).2 ctx).valid = true := hperm2
    rw [@remember_of_perm { env with sim := simf } w input ctx newId now hperm3,
        @remember_of_perm env w input ctx newId now hperm2]
    unfold rememberBody
    rw [hsup]
    simp only [explicitSupersedeStep_found hfind]
    rfl

/-- Witness for the amended C8: superseding the live memory B1 explicitly
reports it as merged_from, and the write's outcome is unchanged under an
arbitrary replacement of the similarity function. -/
theorem explicit_supersedes_links_target_witness :
    (remember pgEnv c8World c8GoodInput none "N1" 5).1.merged_from = some "B1"
    ∧ remember { pgEnv with sim := fun _ _ => 0 } c8World c8GoodInput none "N1" 5
        = remember pgEnv c8World c8GoodInput none "N1" 5 :=
  ⟨(explicit_supersedes_links_target pgEnv c8World c8GoodInput none "N1" 5 "B1" c8Other
      Scope.personal none none (by decide) (by decide) (by decide) rfl (by decide)
      (by decide)).1,
   (explicit_supersedes_links_target pgEnv c8World c8GoodInput none "N1" 5 "B1" c8Other
      Scope.personal none none (by decide) (by decide) (by decide) rfl (by decide)
      (by decide)).2.2.2 (fun _ _ => 0)⟩

theorem dedupStep_error {env : Env} {mems : List Memory} {scope : Scope}
    {scopeId : Option String} {uid content newId : String} {mf : Option String}
    {msg : String} (hembed : env.embed content = Except.error msg) :
    dedupStep env mems scope scopeId uid content newId mf = (none, mf, mems) := by
  unfold dedupStep
  by_cases hc : (env.isPostgres && env.openaiApiKey) = true
  · rw [if_pos hc, hembed]
  · rw [if_neg hc]

/-- One unfolding of the modelled queue runtime. -/
theorem runQueueJobAux_step (provider : Nat → Except String Emb) (job : EmbeddingJobData)
    (mems : List Memory) (made : Nat) (delays : List Nat) (rem : Nat) :
    runQueueJobAux provider job mems made delays (rem + 1) =
      (match provider (made + 1) with
       | Except.ok e => (applyEmbeddingSuccess mems job.memoryId e, made + 1, delays)
       | Except.error msg =>
         (if rem = 0 then
            ((if MAX_ATTEMPTS ≤ made + 1 then
                applyEmbeddingFailure mems job.memoryId msg else mems),
             made + 1, delays)
          else runQueueJobAux provider job
            (if MAX_ATTEMPTS ≤ made + 1 then
              applyEmbeddingFailure mems job.memoryId msg else mems)
            (made + 1) (delays ++ [backoffDelay (made + 1)]) rem)) := rfl

/-- A provider that fails on every attempt exhausts the fuel: the attempt
counter advances by the fuel, the failure row is written exactly when the
final attempt count reaches MAX_ATTEMPTS, and one exponential backoff delay
is waited after each non-final attempt. -/
theorem runQueueJobAux_allFail (provider : Nat → Except String Emb) (errs : Nat → String)
    (job : EmbeddingJobData)
    (hfail : ∀ k, provider k = Except.error (errs k)) :
    ∀ (fuel made : Nat) (delays : List Nat) (mems : List Memory),
      fuel ≠ 0 → made + fuel ≤ MAX_ATTEMPTS →
      runQueueJobAux provider job mems made delays fuel =
        ((if made + fuel = MAX_ATTEMPTS then
            applyEmbeddingFailure mems job.memoryId (errs (made + fuel)) else mems),
         made + fuel,
         delays ++ backoffList made fuel) := by
  intro fuel
  induction fuel with
  | zero =>
    intro made delays mems h0 _
    exact absurd rfl h0
  | succ rem ih =>
    intro made delays mems _ hle
    rw [runQueueJobAux_step]
    simp only [hfail]
    by_cases hrem : rem = 0
    · subst hrem
      rw [if_pos rfl]
      have hfuel : made + (0 + 1) = made + 1 := by omega
      rw [hfuel]
      simp only [backoffList, if_pos rfl, List.append_nil]
      by_cases he : made + 1 = MAX_ATTEMPTS
      · rw [if_pos he, if_pos (by omega : MAX_ATTEMPTS ≤ made + 1)]
        simp
      · rw [if_neg he, if_neg (by omega : ¬ (MAX_ATTEMPTS ≤ made + 1))]
        simp
    · rw [if_neg hrem]
      rw [ih (made + 1) (delays ++ [backoffDelay (made + 1)]) _ hrem (by omega)]
      have hnot : ¬ (MAX_ATTEMPTS ≤ made + 1) := by
        have h2 : made + (rem + 1) ≤ MAX_ATTEMPTS := hle
        omega
      rw [if_neg hnot]
      have h1 : made + 1 + rem = made + (rem + 1) := by omega
      rw [h1]
      have h2 : backoffList made (rem + 1)
          = backoffDelay (made + 1) :: backoffList (made + 1) rem := by
        simp only [backoffList, if_neg hrem]
      rw [h2, List.append_assoc, List.singleton_append]

theorem runQueueJob_allFail (provider : Nat → Except String Emb) (errs : Nat → String)
    (job : EmbeddingJobData) (mems : List Memory)
    (hfail : ∀ k, provider k = Except.error (errs k)) :
    runQueueJob provider job mems =
      (applyEmbeddingFailure mems job.memoryId (errs 5), 5,
       [60000, 120000, 240000, 480000]) := by
  unfold runQueueJob
  rw [runQueueJobAux_allFail provider errs job hfail MAX_ATTEMPTS 0 [] mems
    (by decide) (by decide)]
  simp only [Prod.mk.injEq]
  refine ⟨?_, ?_, ?_⟩
  · norm_num [MAX_ATTEMPTS]
  · norm_num [MAX_ATTEMPTS]
  · decide

/-- Claim C6: with the durable queue configured and a provider that fails at
write time and on every queue attempt, the remember call itself succeeds
with the row pending and the job enqueued — before any retry — and the queue
runtime then makes 5 attempts in total, waiting exponential backoff delays
of 1, 2, 4 and 8 minutes, after which the row is failed with the last
attempt's error text. -/
theorem embedding_retry_pipeline
    (env : Env) (w : World) (input : RememberInput) (ctx : Option McpContext)
    (newId : String) (now : Int) (scope : Scope) (scopeId0 scopeId : Option String)
    (msg0 : String) (provider : Nat → Except String Emb) (errs : Nat → String)
    (hrs : resolveScope input ctx = (scope, scopeId0))
    (hfix : fixTeamScopeId scope scopeId0 ctx = scopeId)
    (hperm : (validateWritePermission w.db input.user_id scope scopeId0 ctx).valid = true)
    (hpg : env.isPostgres = true) (hen : env.embeddingEnabled = true)
    (hred : env.redisUrl = true)
    (hembed : env.embed input.content = Except.error msg0)
    (hfail : ∀ k, provider k = Except.error (errs k)) :
    (remember env w input ctx newId now).1.success = true
    ∧ ((remember env w input ctx newId now).1.memory.map Memory.embedding_status)
        = some (some EmbStatus.pending)
    ∧ (remember env w input ctx newId now).2.queue
        = w.queue ++ [⟨newId, input.content⟩]
    ∧ (runQueueJob provider ⟨newId, input.content⟩
        (remember env w input ctx newId now).2.db.memories).2.1 = 5
    ∧ (runQueueJob provider ⟨newId, input.content⟩
        (remember env w input ctx newId now).2.db.memories).2.2
        = [60000, 120000, 240000, 480000]
    ∧ ∃ m ∈ (runQueueJob provider ⟨newId, input.content⟩
        (remember env w input ctx newId now).2.db.memories).1,
        m.id = newId ∧ m.embedding_status = some EmbStatus.failed
        ∧ m.embedding_error = some (errs 5) := by
  have hperm2 : (validateWritePermission w.db input.user_id (resolveScope input ctx).1
      (resolveScope input ctx).2 ctx).valid = true := by
    rw [hrs]
    exact hperm
  have halign : rememberBody env w input newId now (resolveScope input ctx).1
      (fixTeamScopeId (resolveScope input ctx).1 (resolveScope input ctx).2 ctx)
      = rememberBody env w input newId now scope scopeId := by
    rw [hrs, ← hfix]
  have hrem : remember env w input ctx newId now =
      ({ success := true
         memory := some (newMemoryRow env input newId now scope scopeId none)
         merged_from := (explicitSupersedeStep w.db.memories input.supersedes newId).1
         error := none },
       { db := { w.db with memories :=
           ((explicitSupersedeStep w.db.memories input.supersedes newId).2
             ++ [newMemoryRow env input newId now scope scopeId none]) }
         queue := w.queue ++ [⟨newId, input.content⟩] }) := by
    rw [remember_of_perm hperm2, halign]
    unfold rememberBody
    simp only [dedupStep_error hembed]
    exact rememberFinish_queued env w input newId now scope scopeId _ _ hpg hen hred
  have hjob := runQueueJob_allFail provider errs ⟨newId, input.content⟩
    (remember env w input ctx newId now).2.db.memories hfail
  refine ⟨?_, ?_, ?_, ?_, ?_, ?_⟩
  · rw [hrem]
  · rw [hrem]
    simp [newMemoryRow, hpg]
  · rw [hrem]
  · rw [hjob]
  · rw [hjob]
  · refine ⟨{ newMemoryRow env input newId now scope scopeId none with
      embedding_status := some EmbStatus.failed
      embedding_error := some (errs 5) }, ?_, rfl, rfl, rfl⟩
    rw [hjob]
    show _ ∈ applyEmbeddingFailure (remember env w input ctx newId now).2.db.memories
      newId (errs 5)
    rw [hrem]
    unfold applyEmbeddingFailure
    refine List.mem_map.mpr ⟨newMemoryRow env input newId now scope scopeId none, by simp, ?_⟩
    rw [if_pos (show (newMemoryRow env input newId now scope scopeId none).id = newId from rfl)]

/-- Witness for C6: the concrete five-attempt run on a fresh store. -/
theorem embedding_retry_pipeline_witness :
    (remember c6Env { db := emptyDb, queue := [] } defaultRemember none "B1" 5).1.success = true
    ∧ (remember c6Env { db := emptyDb, queue := [] } defaultRemember none "B1" 5).2.queue
        = [⟨"B1", defaultRemember.content⟩]
    ∧ (runQueueJob c6Provider ⟨"B1", defaultRemember.content⟩
        (remember c6Env { db := emptyDb, queue := [] } defaultRemember none "B1" 5).2.db.memories).2.1
        = 5
    ∧ (runQueueJob c6Provider ⟨"B1", defaultRemember.content⟩
        (remember c6Env { db := emptyDb, queue := [] } defaultRemember none "B1" 5).2.db.memories).2.2
        = [60000, 120000, 240000, 480000]
    ∧ ((runQueueJob c6Provider ⟨"B1", defaultRemember.content⟩
        (remember c6Env { db := emptyDb, queue := [] } defaultRemember none "B1" 5).2.db.memories).1.map
          (fun m => (m.id, m.embedding_status, m.embedding_error)))
        = [("B1", some EmbStatus.failed, some "boom attempt 5")] :=
  ⟨(embedding_retry_pipeline c6Env { db := emptyDb, queue := [] } defaultRemember none "B1" 5
      Scope.personal none none "boom sync" c6Provider c6Errs (by decide) (by decide) (by decide)
      rfl rfl rfl rfl (fun _ => rfl)).1,
   by decide,
   (embedding_retry_pipeline c6Env { db := emptyDb, queue := [] } defaultRemember none "B1" 5
      Scope.personal none none "boom sync" c6Provider c6Errs (by decide) (by decide) (by decide)
      rfl rfl rfl rfl (fun _ => rfl)).2.2.2.1,
   (embedding_retry_pipeline c6Env { db := emptyDb, queue := [] } defaultRemember none "B1" 5
      Scope.personal none none "boom sync" c6Provider c6Errs (by decide) (by decide) (by decide)
      rfl rfl rfl rfl (fun _ => rfl)).2.2.2.2.1,
   by decide⟩

/-- Claim C9: on a store holding one memory with a NULL embedding and a
provider that fails every call, the first backfill batch records the failure
(embedding_status failed, error text stored) but leaves the embedding
column NULL, so the next selection returns the same non-empty batch and the
batch step maps the state to itself: the while-true loop never reaches an
empty selection and the run does not terminate. -/
theorem backfill_never_terminates_on_persistent_failure :
    backfillSelect [baseMemory] = [baseMemory]
    ∧ backfillBatch c9Env [baseMemory] = [c9FailedMem]
    ∧ c9FailedMem.embedding = none
    ∧ c9FailedMem.embedding_status = some EmbStatus.failed
    ∧ c9FailedMem.embedding_error = some "provider down"
    ∧ backfillSelect [c9FailedMem] = [c9FailedMem]
    ∧ backfillBatch c9Env [c9FailedMem] = [c9FailedMem] := by
  decide

end ReminderMcp
